import Mathlib

/-!
# The `field` and `bindValidationMessage` directives

A shallow embedding of `1820EN_10_Code/04_field_directive/directive.js`.

* JavaScript strings are `String`; a value that is a string or `undefined` is an
  `Option String`, and its truthiness is `truthy`.
* A JavaScript object used as a dictionary (`validationMessages`, `attrs.$attr`) is the
  association list of its own properties in enumeration order.  `lookup` reads an own
  property and `assign` performs `object[key] = value`, which for the key `__proto__`
  sets the prototype and adds no property.  `read` is the property read `object[key]`,
  which also finds the members a plain object inherits from `Object.prototype`.
* A DOM node list is kept in first-child / next-sibling form, the way the DOM links its
  nodes.  A jqLite wrapper around the directive's own element is an `Element`; the
  wrapper around a template is the `NodeList` of its root nodes.  A reference to one
  element inside a template is the `Path` that leads to it.
* The services of the host framework and of the browser that the directive calls
  (`$http.get`, `$interpolate`, the HTML parser, `toLowerCase`) are the fields of `Host`.
  jqLite's `attr` is modelled with its treatment of boolean attributes, and
  `angular.element` with its refusal of a string that is not markup.
* A promise is modelled by its outcome: `Except JsError` is a fulfilled or rejected
  promise, and a `then` callback runs only on the fulfilled one.
-/

namespace FieldDirective

/-! ## JavaScript values -/

/-- Exceptions the directive can raise: `new Error(message)`, and the `TypeError` the
engine raises when a method is called on `undefined`. -/
inductive JsError where
  | error (message : String)
  | typeError
  deriving DecidableEq, Repr

deriving instance DecidableEq for Except

/-- Truthiness of a value that is a string or `undefined`: only a non-empty string is
truthy. -/
def truthy (value : Option String) : Bool :=
  match value with
  | some s => decide (s ≠ "")
  | none => false

/-- Property name a value is converted to when it is used as a key: `obj[undefined]`
is `obj["undefined"]`. -/
def propertyKey (value : Option String) : String :=
  match value with
  | some key => key
  | none => "undefined"

/-- Objects used as dictionaries, as the list of their own properties in enumeration
order. -/
abbrev Dict (α : Type) := List (String × α)

/-- Reads the own property `key`: `none` when the object has no such property. -/
def lookup {α : Type} (object : Dict α) (key : String) : Option α :=
  match object with
  | [] => none
  | (k, v) :: rest => if k = key then some v else lookup rest key

/-- Writes the entry `key`: an existing entry keeps its place and gets the new value, a
new entry is added last. -/
def put {α : Type} (object : Dict α) (key : String) (value : α) : Dict α :=
  match object with
  | [] => [(key, value)]
  | (k, v) :: rest =>
    if k = key then (k, value) :: rest else (k, v) :: put rest key value

/-- Performs `object[key] = value` on a plain object, for a value that is an object or a
function.  Under the key `__proto__` the assignment sets the prototype of the object and
creates no property. -/
def assign {α : Type} (object : Dict α) (key : String) (value : α) : Dict α :=
  if key = "__proto__" then object else put object key value

/-- Property names a plain object inherits from `Object.prototype`. -/
def objectPrototype : List String :=
  ["constructor", "hasOwnProperty", "isPrototypeOf", "propertyIsEnumerable",
    "toLocaleString", "toString", "valueOf", "__proto__", "__defineGetter__",
    "__defineSetter__", "__lookupGetter__", "__lookupSetter__"]

/-- What a property read of a plain object gives: the value of an own property, or the
member of `Object.prototype` of that name. -/
inductive Member (α : Type) where
  | own (value : α)
  | inherited (name : String)
  deriving DecidableEq, Repr

/-- Reads `object[key]` on a plain object: the own property if there is one, else the
member inherited from `Object.prototype`, else `undefined`.  Every member is truthy. -/
def read {α : Type} (object : Dict α) (key : String) : Option (Member α) :=
  match lookup object key with
  | some value => some (.own value)
  | none => if key ∈ objectPrototype then some (.inherited key) else none

/-- Replaces the first occurrence of a character, if there is one. -/
def replaceFirst (searchValue newValue : Char) : List Char → List Char
  | [] => []
  | c :: cs =>
    if c = searchValue then newValue :: cs else c :: replaceFirst searchValue newValue cs

/-- Models `string.replace(searchValue, newValue)` for one-character string arguments: a
string pattern replaces the first match only. -/
def replace (string : String) (searchValue newValue : Char) : String :=
  ⟨replaceFirst searchValue newValue string.data⟩

/-- Lower-cases the letters `A` to `Z`; the `toLowerCase` used in the worked examples. -/
def asciiLowerCase (string : String) : String :=
  ⟨string.data.map Char.toLower⟩

/-- The helper `lowercase` of the framework, on attribute names. -/
def lowercase (name : String) : String :=
  asciiLowerCase name

/-- The table `BOOLEAN_ATTR` of jqLite, by lower-cased name. -/
def booleanAttr : List String :=
  ["multiple", "selected", "checked", "disabled", "readonly", "required", "open"]

/-- Tests `BOOLEAN_ATTR[lowercase(name)]`. -/
def isBooleanAttr (name : String) : Bool :=
  decide (lowercase name ∈ booleanAttr)

/-! ## The DOM -/

/-- Attributes of an element, in order. -/
abbrev Attributes := List (String × String)

/-- Sibling list of DOM nodes: empty, or a text node or an element followed by its next
siblings.  An element carries its tag name, its attributes and its child nodes. -/
inductive NodeList where
  | nil : NodeList
  | text (data : String) (nextSibling : NodeList) : NodeList
  | element (tagName : String) (attributes : Attributes) (childNodes : NodeList)
      (nextSibling : NodeList) : NodeList
  deriving DecidableEq, Repr

/-- One element: what a jqLite wrapper around a single element gives access to. -/
structure Element where
  tagName : String
  attributes : Attributes
  childNodes : NodeList
  deriving DecidableEq, Repr

/-- One step of a reference into a node list. -/
inductive Step where
  | firstChild
  | nextSibling
  deriving DecidableEq, Repr

/-- Reference to a node of a node list: the steps that lead to it from the first node. -/
abbrev Path := List Step

/-- Appends the nodes of `added` after the nodes of `nodes`. -/
def NodeList.append (nodes added : NodeList) : NodeList :=
  match nodes with
  | .nil => added
  | .text data next => .text data (next.append added)
  | .element tag attributes children next =>
    .element tag attributes children (next.append added)

/-- Computes `textContent`: the text of all text nodes, in document order. -/
def NodeList.textContent : NodeList → String
  | .nil => ""
  | .text data next => data ++ next.textContent
  | .element _ _ children next => children.textContent ++ next.textContent

/-- Escapes a text node for serialisation. -/
def escapeText (data : String) : String :=
  ⟨(data.data.map fun c =>
    if c = '&' then "&amp;".data else if c = '<' then "&lt;".data
    else if c = '>' then "&gt;".data else [c]).flatten⟩

/-- Escapes an attribute value for serialisation. -/
def escapeAttribute (value : String) : String :=
  ⟨(value.data.map fun c =>
    if c = '&' then "&amp;".data else if c = '"' then "&quot;".data else [c]).flatten⟩

/-- Serialises the attributes of a start tag. -/
def serializeAttributes : Attributes → String
  | [] => ""
  | (name, value) :: rest =>
    " " ++ name ++ "=" ++ String.singleton '"' ++ escapeAttribute value
      ++ String.singleton '"' ++ serializeAttributes rest

/-- Elements that are serialised without an end tag. -/
def voidElements : List String :=
  ["area", "base", "br", "col", "embed", "hr", "img", "input", "link", "meta", "param",
    "source", "track", "wbr"]

/-- Serialises a node list the way `innerHTML` does: text nodes escaped, elements as a
start tag, their children and an end tag. -/
def NodeList.serialize : NodeList → String
  | .nil => ""
  | .text data next => escapeText data ++ next.serialize
  | .element tag attributes children next =>
    if tag ∈ voidElements then
      "<" ++ tag ++ serializeAttributes attributes ++ ">" ++ next.serialize
    else
      "<" ++ tag ++ serializeAttributes attributes ++ ">" ++ children.serialize
        ++ "</" ++ tag ++ ">" ++ next.serialize

/-- Lists every element of a node list with the reference to it, in document order:
each element, then its descendants, then its next siblings. -/
def NodeList.elements : NodeList → List (Path × Element)
  | .nil => []
  | .text _ next => next.elements.map fun r => (Step.nextSibling :: r.1, r.2)
  | .element tag attributes children next =>
    (([] : Path), (⟨tag, attributes, children⟩ : Element))
      :: (children.elements.map fun r => (Step.firstChild :: r.1, r.2))
      ++ (next.elements.map fun r => (Step.nextSibling :: r.1, r.2))

/-- Lists the descendants of the root nodes of a wrapper, in document order; the roots
themselves are not descendants. -/
def NodeList.descendants : NodeList → List (Path × Element)
  | .nil => []
  | .text _ next => next.descendants.map fun r => (Step.nextSibling :: r.1, r.2)
  | .element _ _ children next =>
    (children.elements.map fun r => (Step.firstChild :: r.1, r.2))
      ++ (next.descendants.map fun r => (Step.nextSibling :: r.1, r.2))

/-- Models `wrapper.find(tag)` on the wrapper of a template: the descendants of its roots
that have the tag, in document order. -/
def NodeList.find (wrapper : NodeList) (tag : String) : List (Path × Element) :=
  wrapper.descendants.filter fun r => decide (r.2.tagName = tag)

/-- Models `element.find(tag)` on the wrapper of one element: its descendants that have
the tag, in document order. -/
def Element.find (element : Element) (tag : String) : List Element :=
  (element.childNodes.elements.filter fun r => decide (r.2.tagName = tag)).map (·.2)

/-- Models the getter `element.attr(name)` of jqLite on an element that has no DOM
property of that name: a boolean attribute that is specified reads as its lower-cased
name, any other attribute as its value; `none` is `undefined`. -/
def Element.attr (element : Element) (name : String) : Option String :=
  if isBooleanAttr name then
    if (lookup element.attributes name).isSome then some (lowercase name) else none
  else lookup element.attributes name

/-- Performs `removeAttribute(name)` on the attributes of an element. -/
def removeAttribute (attributes : Attributes) (name : String) : Attributes :=
  attributes.filter fun entry => decide (entry.1 ≠ name)

/-- The change the setter `attr(name, value)` of jqLite makes to the attributes of one
element: a boolean attribute is set to its lower-cased name when the value is truthy and
removed when it is not, any other attribute is set to the value. -/
def attrWrite (name value : String) (attributes : Attributes) : Attributes :=
  if isBooleanAttr name then
    if value ≠ "" then put attributes name (lowercase name)
    else removeAttribute attributes (lowercase name)
  else put attributes name value

/-- Models the getter `element.html()`: the `innerHTML` of the element. -/
def Element.html (element : Element) : String :=
  element.childNodes.serialize

/-- Models the getter `element.text()`: the `textContent` of the element. -/
def Element.text (element : Element) : String :=
  element.childNodes.textContent

/-- The element a reference leads to, if it leads to one. -/
def NodeList.elementAt : NodeList → Path → Option Element
  | .element tag attributes children _, [] => some ⟨tag, attributes, children⟩
  | .element _ _ children _, Step.firstChild :: rest => children.elementAt rest
  | .element _ _ _ next, Step.nextSibling :: rest => next.elementAt rest
  | .text _ next, Step.nextSibling :: rest => next.elementAt rest
  | _, _ => none

/-- Changes the attributes of the element a reference leads to. -/
def NodeList.updateAttributesAt : NodeList → Path → (Attributes → Attributes) → NodeList
  | .element tag attributes children next, [], change =>
    .element tag (change attributes) children next
  | .element tag attributes children next, Step.firstChild :: rest, change =>
    .element tag attributes (children.updateAttributesAt rest change) next
  | .element tag attributes children next, Step.nextSibling :: rest, change =>
    .element tag attributes children (next.updateAttributesAt rest change)
  | .text data next, Step.nextSibling :: rest, change =>
    .text data (next.updateAttributesAt rest change)
  | nodes, _, _ => nodes

/-- Reads `getAttribute(name)` of the element in a wrapper of at most one element of a
template: the attribute as the DOM holds it; `none` when the wrapper is empty or the
element has no such attribute. -/
def NodeList.attrGet (dom : NodeList) (wrapped : Option Path) (name : String) :
    Option String :=
  match wrapped with
  | some path => (dom.elementAt path).bind fun e => lookup e.attributes name
  | none => none

/-- Models `wrapped.attr(name, value)` on a wrapper of at most one element of a template.
With an `undefined` value the call is the getter and changes nothing; on the empty
wrapper it changes nothing either. -/
def NodeList.attrSet (dom : NodeList) (wrapped : Option Path) (name : String)
    (value : Option String) : NodeList :=
  match wrapped, value with
  | some path, some v => dom.updateAttributesAt path (attrWrite name v)
  | _, _ => dom

/-- Sets the attribute on every element of the node list that has the tag. -/
def NodeList.attrAll (nodes : NodeList) (tag name value : String) : NodeList :=
  match nodes with
  | .nil => .nil
  | .text data next => .text data (next.attrAll tag name value)
  | .element t attributes children next =>
    .element t (if t = tag then attrWrite name value attributes else attributes)
      (children.attrAll tag name value) (next.attrAll tag name value)

/-- Models `wrapper.find(tag).attr(name, value)`: sets the attribute on every descendant
of the roots that has the tag. -/
def NodeList.findAttr (wrapper : NodeList) (tag name value : String) : NodeList :=
  match wrapper with
  | .nil => .nil
  | .text data next => .text data (next.findAttr tag name value)
  | .element t attributes children next =>
    .element t attributes (children.attrAll tag name value) (next.findAttr tag name value)

/-- Sets `innerHTML` of every element of the node list that has the tag.  The old
children of such an element leave the document, so an assignment to one of them does
not show in the result. -/
def NodeList.htmlAll (nodes : NodeList) (tag : String) (content : NodeList) : NodeList :=
  match nodes with
  | .nil => .nil
  | .text data next => .text data (next.htmlAll tag content)
  | .element t attributes children next =>
    if t = tag then .element t attributes content (next.htmlAll tag content)
    else .element t attributes (children.htmlAll tag content) (next.htmlAll tag content)

/-- Models `wrapper.find(tag).html(content)`: sets `innerHTML` of every descendant of the
roots that has the tag. -/
def NodeList.findHtml (wrapper : NodeList) (tag : String) (content : NodeList) : NodeList :=
  match wrapper with
  | .nil => .nil
  | .text data next => .text data (next.findHtml tag content)
  | .element t attributes children next =>
    .element t attributes (children.htmlAll tag content) (next.findHtml tag content)

/-! ## The host -/

/-- Services of the browser and of the framework that the directive calls.  `httpGet` is
`$http.get` on the template cache: the `data` of the response, or `none` when the
request fails.  `parseHTML` is the HTML parser of the browser, which builds the nodes
for an `innerHTML` assignment.  `interpolate` is `$interpolate`, which gives the
message function of a text or throws when an expression in the text does not parse. -/
structure Host (α : Type) where
  toLowerCase : String → String
  interpolate : String → Except JsError α
  httpGet : String → Option String
  parseHTML : String → NodeList

/-- The attributes object handed to `compile` and `link`: the normalized attributes the
directive reads, and `$attr`, which maps each normalized attribute name to the name it
has on the element. -/
structure Attrs where
  fieldLabel : Option String
  ngModel : Option String
  template : Option String
  attr : Dict String
  deriving DecidableEq, Repr

/-! ## The `field` directive -/

/-- Models `angular.element(html)` on a string: jqLite throws when the string does not
start with `<`, and else wraps the nodes the parser builds from it. -/
def angular.element {α : Type} (host : Host α) (html : String) : Except JsError NodeList :=
  if html.data.head? = some '<' then .ok (host.parseHTML html)
  else .error (.error "selectors not implemented")

/-- Load a template and instantiate a DOM element from it.  An exception in the success
callback rejects the promise. -/
def loadTemplate {α : Type} (host : Host α) (template : String) : Except JsError NodeList :=
  match host.httpGet template with
  | some data => angular.element host data
  | none => .error (.error ("Template not found: " ++ template))

/-- Find the input element in the template: the first `input`, else the first `select`,
else the first `textarea`, wrapped; the wrapper is empty when there is none. -/
def findInputElement (templateElement : NodeList) : Option Path :=
  (((templateElement.find "input").head?.orElse fun _ =>
    (templateElement.find "select").head?).orElse fun _ =>
    (templateElement.find "textarea").head?).map (·.1)

/-- The loop of `getValidationMessageMap` over the `validator` elements: each stores the
function `$interpolate` makes from its text under its `key` attribute; the loop ends at
the first text `$interpolate` throws on. -/
def storeMessages {α : Type} (host : Host α) (validators : List Element)
    (validationMessages : Dict α) : Except JsError (Dict α) :=
  match validators with
  | [] => .ok validationMessages
  | element :: rest =>
    match host.interpolate element.text with
    | .error e => .error e
    | .ok getMessage =>
      storeMessages host rest
        (assign validationMessages (propertyKey (element.attr "key")) getMessage)

/-- Find all the `validator` elements and store, under the `key` attribute of each, the
function `$interpolate` makes from its text. -/
def getValidationMessageMap {α : Type} (host : Host α) (originalElement : Element) :
    Except JsError (Dict α) :=
  storeMessages host (originalElement.find "validator") []

/-- Find the content that will go into the new label. -/
def extractLabelContent (originalElement : Element) (attrs : Attrs) :
    Except JsError String :=
  let labelContent :=
    if truthy attrs.fieldLabel then attrs.fieldLabel.getD ""
    else
      match (originalElement.find "label").head? with
      | some label => label.html
      | none => ""
  if labelContent = "" then .error (.error "No label provided") else .ok labelContent

/-- What `compile` leaves for the link function: the message map, the label content and
the directive's element. -/
structure Compiled (α : Type) where
  messageMap : Dict α
  labelContent : String
  element : Element

/-- The `compile` function: extracts the message map and the label content, then clears
the element. -/
def compile {α : Type} (host : Host α) (element : Element) (attrs : Attrs) :
    Except JsError (Compiled α) :=
  match getValidationMessageMap host element with
  | .error e => .error e
  | .ok messageMap =>
    match extractLabelContent element attrs with
    | .error e => .error e
    | .ok labelContent =>
      .ok { messageMap := messageMap, labelContent := labelContent,
            element := { element with childNodes := .nil } }

/-- The template's child scope. -/
structure ChildScope where
  id : String
  fieldId : String
  fieldLabel : String
  deriving DecidableEq, Repr

/-- The id generated for a field from the `ng-model` expression and the id of the child
scope. -/
def fieldId (toLowerCase : String → String) (ngModel scopeId : String) : String :=
  toLowerCase (replace ngModel '.' '_') ++ "_" ++ scopeId

/-- Names of the directives that are not supported on the field element. -/
def unsupported (normalized : String) : Bool :=
  decide (normalized = "ngRepeat" ∨ normalized = "ngSwitch" ∨ normalized = "uiIf")

/-- The loop that copies the attributes named in `$attr` from the element to the input
element of the template; it throws at the first unsupported directive. -/
def copyAttributes (attr : Dict String) (element : Element) (inputElement : Option Path)
    (newElement : NodeList) : Except JsError NodeList :=
  match attr with
  | [] => .ok newElement
  | (normalized, original) :: rest =>
    if unsupported normalized then
      .error (.error (normalized
        ++ " directives are not supported on the same element as the field directive."))
    else
      copyAttributes rest element inputElement
        (newElement.attrSet inputElement original (element.attr original))

/-- What the callback on the loaded template produces when it completes: the element
with the template appended, the template as handed to `$compile`, and the child scope. -/
structure Linked where
  element : Element
  newElement : NodeList
  childScope : ChildScope
  deriving DecidableEq, Repr

/-- The callback `link` runs on the loaded template. -/
def templateLoaded {α : Type} (host : Host α) (labelContent : String) (element : Element)
    (attrs : Attrs) (childScopeId : String) (newElement : NodeList) :
    Except JsError Linked :=
  let newElement := newElement.findHtml "label" (host.parseHTML labelContent)
  match attrs.ngModel with
  | none => .error .typeError
  | some ngModel =>
    let childScope : ChildScope :=
      { id := childScopeId, fieldId := fieldId host.toLowerCase ngModel childScopeId,
        fieldLabel := labelContent }
    let inputElement := findInputElement newElement
    match copyAttributes attrs.attr element inputElement newElement with
    | .error e => .error e
    | .ok newElement =>
      let newElement := newElement.attrSet inputElement "name" (some childScope.fieldId)
      let newElement := newElement.attrSet inputElement "id" (some childScope.fieldId)
      let newElement := newElement.findAttr "label" "for" childScope.fieldId
      .ok { element := { element with childNodes := element.childNodes.append newElement },
            newElement := newElement, childScope := childScope }

/-- State the link function works on: the message map of the field's controller, the
directive's element, and the template and child scope handed to `$compile`, once that
call has been made. -/
structure FieldState (α : Type) where
  messageMap : Option (Dict α)
  element : Element
  compiled : Option (NodeList × ChildScope)

/-- The link function, with the outcome of the promise `getFieldElement`.  The copy
`angular.copy` makes of the message map is kept as the own entries of the map. -/
def link {α : Type} (host : Host α) (messageMap : Dict α) (labelContent : String)
    (element : Element) (attrs : Attrs) (childScopeId : String) :
    FieldState α × Except JsError Unit :=
  let state : FieldState α :=
    { messageMap := some messageMap, element := element, compiled := none }
  let template := if truthy attrs.template then attrs.template.getD "" else "input.html"
  match loadTemplate host template with
  | .error e => (state, .error e)
  | .ok newElement =>
    match templateLoaded host labelContent element attrs childScopeId newElement with
    | .error e => (state, .error e)
    | .ok linked =>
      ({ state with element := linked.element,
                    compiled := some (linked.newElement, linked.childScope) }, .ok ())

/-! ## The `bindValidationMessage` directive -/

/-- State of one `bindValidationMessage` link: the watch whose removal function is held
in `removeWatch`, the watches this link has registered on the scope and not removed, each
with the handle `$watch` returned for it, and the next free handle. -/
structure BindState (α : Type) where
  removeWatch : Option Nat
  watchers : List (Nat × Member α)
  nextHandle : Nat

/-- State when the link function has run and the key has not been observed yet. -/
def BindState.initial {α : Type} : BindState α :=
  { removeWatch := none, watchers := [], nextHandle := 0 }

/-- The `$observe` callback for a new value of the key.  The watch is registered on what
the property read `fieldController.messageMap[key]` gives. -/
def observe {α : Type} (messageMap : Dict α) (state : BindState α) (key : String) :
    BindState α :=
  let state : BindState α :=
    match state.removeWatch with
    | some handle =>
      { state with watchers := state.watchers.filter (fun w => decide (w.1 ≠ handle)),
                   removeWatch := none }
    | none => state
  if key ≠ "" then
    match read messageMap key with
    | some getMessage =>
      { removeWatch := some state.nextHandle,
        watchers := state.watchers ++ [(state.nextHandle, getMessage)],
        nextHandle := state.nextHandle + 1 }
    | none => state
  else state

/-- The state after the key took the given values in turn. -/
def observeAll {α : Type} (messageMap : Dict α) (keys : List String) : BindState α :=
  keys.foldl (observe messageMap) BindState.initial

/-! ## Worked inputs -/

/-- A host for the worked examples: the template cache holds `input.html`, the parser
knows that template and turns any other string into one text node. -/
def exampleHost : Host String where
  toLowerCase := asciiLowerCase
  interpolate := fun text => .ok text
  httpGet := fun url =>
    if url = "input.html" then some "<div><label></label><input></div>" else none
  parseHTML := fun html =>
    if html = "<div><label></label><input></div>" then
      .element "div" [] (.element "label" [] .nil (.element "input" [] .nil .nil)) .nil
    else if html = "" then .nil
    else .text html .nil

/-- A field with an empty `label` followed by a `label` with content. -/
def twoLabels : Element :=
  ⟨"field", [("ng-model", "user.name")],
    .element "label" [] .nil (.element "label" [] (.text "Name" .nil) .nil)⟩

/-- The attributes object of `twoLabels` when the element also carries the attribute
`field-label="Your name"`. -/
def labelledAttrs : Attrs :=
  { fieldLabel := some "Your name", ngModel := some "user.name", template := none,
    attr := [("ngModel", "ng-model"), ("fieldLabel", "field-label")] }

/-- A field with a `validator` that has no `key` attribute. -/
def keylessValidator : Element :=
  ⟨"field", [("ng-model", "user.name"), ("field-label", "Name")],
    .element "validator" [] (.text "Required" .nil) .nil⟩

/-- A field with two `validator` children that share a key. -/
def twoValidators : Element :=
  ⟨"field", [("ng-model", "user.email"), ("field-label", "Email")],
    .element "validator" [("key", "required")] (.text "Required" .nil)
      (.element "validator" [("key", "required")] (.text "Please fill in" .nil) .nil)⟩

/-- A field element that carries its own `name`, `id` and `for` attributes, after `compile`
cleared it. -/
def namedField : Element :=
  ⟨"field", [("ng-model", "user.Name"), ("field-label", "Name"), ("name", "mine"),
    ("id", "mine"), ("for", "mine"), ("required", "")], .nil⟩

/-- The attributes object of `namedField`. -/
def namedFieldAttrs : Attrs :=
  { fieldLabel := some "Name", ngModel := some "user.Name", template := none,
    attr := [("ngModel", "ng-model"), ("fieldLabel", "field-label"), ("name", "name"),
      ("id", "id"), ("for", "for"), ("required", "required")] }

/-- A field element with an `ng-repeat` attribute, after `compile` cleared it. -/
def repeatedField : Element :=
  ⟨"field", [("ng-model", "user.name"), ("field-label", "Name"),
    ("ng-repeat", "user in users")], .nil⟩

/-- The attributes object of `repeatedField`. -/
def repeatedFieldAttrs : Attrs :=
  { fieldLabel := some "Name", ngModel := some "user.name", template := none,
    attr := [("ngModel", "ng-model"), ("fieldLabel", "field-label"),
      ("ngRepeat", "ng-repeat")] }

/-- A field element that asks for the template `select.html`, after `compile` cleared
it. -/
def selectField : Element :=
  ⟨"field", [("ng-model", "user.country"), ("field-label", "Country"),
    ("template", "select.html")], .nil⟩

/-- The attributes object of `selectField`. -/
def selectFieldAttrs : Attrs :=
  { fieldLabel := some "Country", ngModel := some "user.country",
    template := some "select.html",
    attr := [("ngModel", "ng-model"), ("fieldLabel", "field-label"),
      ("template", "template")] }

/-- The template `input.html` of `exampleHost`, parsed. -/
def inputTemplate : NodeList :=
  .element "div" [] (.element "label" [] .nil (.element "input" [] .nil .nil)) .nil

/-- The attributes object of a field that has an `ng-model` attribute only. -/
def unlabelledAttrs : Attrs :=
  { fieldLabel := none, ngModel := some "user.name", template := none,
    attr := [("ngModel", "ng-model")] }

/-- A host whose server answers every request with a text that is not markup. -/
def plainTextHost : Host String where
  toLowerCase := asciiLowerCase
  interpolate := fun text => .ok text
  httpGet := fun _ => some "Loading"
  parseHTML := fun html => if html = "" then .nil else .text html .nil

/-- A field with one `validator`, for the key `required`. -/
def requiredField : Element :=
  ⟨"field", [("ng-model", "user.email"), ("field-label", "Email")],
    .element "validator" [("key", "required")] (.text "Required" .nil) .nil⟩

/-- A field with a `validator` for the key `__proto__`. -/
def protoValidator : Element :=
  ⟨"field", [("ng-model", "user.email"), ("field-label", "Email")],
    .element "validator" [("key", "__proto__")] (.text "Required" .nil) .nil⟩


/-- The template `input.html` after the attributes of `namedField` have been copied to its
`input`. -/
def copiedInputTemplate : NodeList :=
  .element "div" []
    (.element "label" [] .nil
      (.element "input"
        [("ng-model", "user.Name"), ("field-label", "Name"), ("name", "mine"),
          ("id", "mine"), ("for", "mine"), ("required", "required")] .nil .nil)) .nil

/-! ## Dictionaries -/

theorem lookup_put {α : Type} (object : Dict α) (key : String) (value : α)
    (other : String) :
    lookup (put object key value) other
      = if key = other then some value else lookup object other := by
  induction object with
  | nil => simp [put, lookup]
  | cons entry rest ih =>
    obtain ⟨k, v⟩ := entry
    by_cases hk : k = key
    · subst hk
      by_cases ho : k = other <;> simp [put, lookup, ho]
    · by_cases ho : k = other
      · subst ho
        simp [put, lookup, hk, Ne.symm hk]
      · simp [put, lookup, hk, ho, ih]

theorem lookup_assign {α : Type} (object : Dict α) (key : String) (value : α)
    (other : String) :
    lookup (assign object key value) other
      = if key = other ∧ key ≠ "__proto__" then some value else lookup object other := by
  unfold assign
  by_cases hproto : key = "__proto__"
  · simp [hproto]
  · simp [hproto, lookup_put]

/-! ## The message map -/

theorem storeMessages_append {α : Type} (host : Host α) (front : List Element)
    (validator : Element) (initial : Dict α) :
    storeMessages host (front ++ [validator]) initial
      = match storeMessages host front initial with
        | .error e => .error e
        | .ok stored =>
          match host.interpolate validator.text with
          | .error e => .error e
          | .ok getMessage =>
            .ok (assign stored (propertyKey (validator.attr "key")) getMessage) := by
  induction front generalizing initial with
  | nil =>
    simp only [List.nil_append, storeMessages]
  | cons head rest ih =>
    simp only [List.cons_append, storeMessages]
    cases host.interpolate head.text with
    | error e => rfl
    | ok getMessage => exact ih _

/-- Reading a map the loop has stored: the last `validator` whose key gives the property
name decides, unless the name is `__proto__`, which is never stored. -/
theorem storeMessages_lookup {α : Type} (host : Host α) (validators : List Element)
    (stored : Dict α) (hstored : storeMessages host validators [] = .ok stored)
    (key : String) :
    lookup stored key
      = if key = "__proto__" then none
        else
          match validators.reverse.find?
              (fun validator => decide (propertyKey (validator.attr "key") = key)) with
          | some validator => (host.interpolate validator.text).toOption
          | none => none := by
  induction validators using List.reverseRecOn generalizing stored with
  | nil =>
    simp only [storeMessages, Except.ok.injEq] at hstored
    subst hstored
    simp [lookup]
  | append_singleton front validator ih =>
    rw [storeMessages_append] at hstored
    cases hfront : storeMessages host front [] with
    | error e => simp [hfront] at hstored
    | ok before =>
      cases hmessage : host.interpolate validator.text with
      | error e => simp [hfront, hmessage] at hstored
      | ok getMessage =>
        simp only [hfront, hmessage, Except.ok.injEq] at hstored
        subst hstored
        rw [lookup_assign, ih before hfront]
        by_cases hproto : key = "__proto__"
        · subst hproto
          simp
        · by_cases hkey : propertyKey (validator.attr "key") = key
          · simp [hkey, hproto, hmessage, Except.toOption]
          · simp [hkey, hproto]

theorem storeMessages_interpolated {α : Type} (host : Host α) (validators : List Element)
    (initial stored : Dict α) (hstored : storeMessages host validators initial = .ok stored) :
    ∀ validator ∈ validators, ∃ getMessage,
      host.interpolate validator.text = .ok getMessage := by
  induction validators generalizing initial with
  | nil => simp
  | cons head rest ih =>
    intro validator hmem
    simp only [storeMessages] at hstored
    cases hmessage : host.interpolate head.text with
    | error e => simp [hmessage] at hstored
    | ok getMessage =>
      simp only [hmessage] at hstored
      rcases List.mem_cons.mp hmem with rfl | hrest
      · exact ⟨getMessage, hmessage⟩
      · exact ih _ hstored validator hrest

theorem storeMessages_completes {α : Type} (host : Host α) (validators : List Element)
    (initial : Dict α)
    (hall : ∀ validator ∈ validators, ∃ getMessage,
      host.interpolate validator.text = .ok getMessage) :
    ∃ stored, storeMessages host validators initial = .ok stored := by
  induction validators generalizing initial with
  | nil => exact ⟨initial, rfl⟩
  | cons head rest ih =>
    obtain ⟨getMessage, hmessage⟩ := hall head (List.mem_cons_self _ _)
    simp only [storeMessages, hmessage]
    exact ih _ (fun validator hmem => hall validator (List.mem_cons_of_mem _ hmem))

/-! ## String identities -/

/-- Two strings that end in an underscore followed by underscore-free tails have the same
tail when they are equal. -/
theorem tail_after_last_underscore (front₁ front₂ tail₁ tail₂ : List Char)
    (h₁ : '_' ∉ tail₁) (h₂ : '_' ∉ tail₂)
    (h : front₁ ++ '_' :: tail₁ = front₂ ++ '_' :: tail₂) : tail₁ = tail₂ := by
  rcases List.append_eq_append_iff.mp h with ⟨mid, _, hmid⟩ | ⟨mid, _, hmid⟩
  · cases mid with
    | nil => simpa using hmid
    | cons c rest =>
      simp only [List.cons_append, List.cons.injEq] at hmid
      exact absurd (by rw [hmid.2]; simp) h₁
  · cases mid with
    | nil => simpa using hmid.symm
    | cons c rest =>
      simp only [List.cons_append, List.cons.injEq] at hmid
      exact absurd (by rw [hmid.2]; simp) h₂

theorem fieldId_data (toLowerCase : String → String) (ngModel scopeId : String) :
    (fieldId toLowerCase ngModel scopeId).data
      = (toLowerCase (replace ngModel '.' '_')).data ++ '_' :: scopeId.data := by
  simp [fieldId, String.data_append]

/-! ## The label content -/

theorem extractLabelContent_attribute (originalElement : Element) (attrs : Attrs)
    (label : String) (hattr : attrs.fieldLabel = some label) (hlabel : label ≠ "") :
    extractLabelContent originalElement attrs = .ok label := by
  simp [extractLabelContent, truthy, hattr, hlabel]

theorem extractLabelContent_child (originalElement : Element) (attrs : Attrs)
    (hattr : truthy attrs.fieldLabel = false) (label : Element)
    (hfirst : (originalElement.find "label").head? = some label) :
    extractLabelContent originalElement attrs
      = if label.html = "" then .error (.error "No label provided") else .ok label.html := by
  simp [extractLabelContent, hattr, hfirst]

theorem extractLabelContent_none (originalElement : Element) (attrs : Attrs)
    (hattr : truthy attrs.fieldLabel = false)
    (hfirst : (originalElement.find "label").head? = none) :
    extractLabelContent originalElement attrs = .error (.error "No label provided") := by
  simp [extractLabelContent, hattr, hfirst]

theorem truthy_eq_true (value : Option String) :
    truthy value = true ↔ ∃ s, value = some s ∧ s ≠ "" := by
  cases value with
  | none => simp [truthy]
  | some s => simp [truthy]

/-! ## References into a node list -/

theorem elementAt_of_mem_elements (dom : NodeList) :
    ∀ r ∈ dom.elements, dom.elementAt r.1 = some r.2 := by
  induction dom with
  | nil => simp [NodeList.elements]
  | text data next ih =>
    intro r hr
    simp only [NodeList.elements, List.mem_map] at hr
    obtain ⟨r0, hr0, rfl⟩ := hr
    simpa [NodeList.elementAt] using ih r0 hr0
  | element tag attributes children next ihc ihn =>
    intro r hr
    simp only [NodeList.elements, List.mem_cons, List.mem_append, List.mem_map] at hr
    rcases hr with (rfl | ⟨r0, hr0, rfl⟩) | ⟨r0, hr0, rfl⟩
    · simp [NodeList.elementAt]
    · simpa [NodeList.elementAt] using ihc r0 hr0
    · simpa [NodeList.elementAt] using ihn r0 hr0

theorem elementAt_of_mem_descendants (dom : NodeList) :
    ∀ r ∈ dom.descendants, dom.elementAt r.1 = some r.2 := by
  induction dom with
  | nil => simp [NodeList.descendants]
  | text data next ih =>
    intro r hr
    simp only [NodeList.descendants, List.mem_map] at hr
    obtain ⟨r0, hr0, rfl⟩ := hr
    simpa [NodeList.elementAt] using ih r0 hr0
  | element tag attributes children next _ ihn =>
    intro r hr
    simp only [NodeList.descendants, List.mem_append, List.mem_map] at hr
    rcases hr with ⟨r0, hr0, rfl⟩ | ⟨r0, hr0, rfl⟩
    · simpa [NodeList.elementAt] using elementAt_of_mem_elements children r0 hr0
    · simpa [NodeList.elementAt] using ihn r0 hr0

theorem elementAt_of_mem_find (dom : NodeList) (tag : String) :
    ∀ r ∈ dom.find tag, dom.elementAt r.1 = some r.2 ∧ r.2.tagName = tag := by
  intro r hr
  simp only [NodeList.find, List.mem_filter, decide_eq_true_eq] at hr
  exact ⟨elementAt_of_mem_descendants dom r hr.1, hr.2⟩

theorem findInputElement_elementAt (dom : NodeList) (path : Path)
    (hfound : findInputElement dom = some path) :
    ∃ e, dom.elementAt path = some e
      ∧ (e.tagName = "input" ∨ e.tagName = "select" ∨ e.tagName = "textarea") := by
  unfold findInputElement at hfound
  simp only [Option.map_eq_some'] at hfound
  obtain ⟨r, hr, rfl⟩ := hfound
  cases hi : (dom.find "input").head? with
  | some ri =>
    rw [hi] at hr
    simp only [Option.orElse] at hr
    cases hr
    have := elementAt_of_mem_find dom "input" r (List.mem_of_mem_head? hi)
    exact ⟨r.2, this.1, Or.inl this.2⟩
  | none =>
    rw [hi] at hr
    cases hs : (dom.find "select").head? with
    | some rs =>
      rw [hs] at hr
      simp only [Option.orElse] at hr
      cases hr
      have := elementAt_of_mem_find dom "select" r (List.mem_of_mem_head? hs)
      exact ⟨r.2, this.1, Or.inr (Or.inl this.2)⟩
    | none =>
      rw [hs] at hr
      simp only [Option.orElse] at hr
      have := elementAt_of_mem_find dom "textarea" r (List.mem_of_mem_head? hr)
      exact ⟨r.2, this.1, Or.inr (Or.inr this.2)⟩

theorem elementAt_updateAttributesAt_tagName (dom : NodeList) (target path : Path)
    (change : Attributes → Attributes) :
    ((dom.updateAttributesAt target change).elementAt path).map (·.tagName)
      = (dom.elementAt path).map (·.tagName) := by
  induction dom generalizing target path with
  | nil => simp [NodeList.updateAttributesAt]
  | text data next ih =>
    rcases target with _ | ⟨_ | _, target⟩ <;> rcases path with _ | ⟨_ | _, path⟩ <;>
      simp [NodeList.updateAttributesAt, NodeList.elementAt, ih]
  | element tag attributes children next ihc ihn =>
    rcases target with _ | ⟨_ | _, target⟩ <;> rcases path with _ | ⟨_ | _, path⟩ <;>
      simp [NodeList.updateAttributesAt, NodeList.elementAt, ihc, ihn]

theorem elementAt_updateAttributesAt_attributes (dom : NodeList) (target path : Path)
    (change : Attributes → Attributes) :
    ((dom.updateAttributesAt target change).elementAt path).map (·.attributes)
      = (dom.elementAt path).map
          (fun e => if path = target then change e.attributes else e.attributes) := by
  induction dom generalizing target path with
  | nil => simp [NodeList.updateAttributesAt, NodeList.elementAt]
  | text data next ih =>
    rcases target with _ | ⟨_ | _, target⟩ <;> rcases path with _ | ⟨_ | _, path⟩ <;>
      simp [NodeList.updateAttributesAt, NodeList.elementAt, ih]
  | element tag attributes children next ihc ihn =>
    rcases target with _ | ⟨_ | _, target⟩ <;> rcases path with _ | ⟨_ | _, path⟩ <;>
      simp [NodeList.updateAttributesAt, NodeList.elementAt, ihc, ihn]

theorem attrGet_eq (dom : NodeList) (path : Path) (name : String) :
    dom.attrGet (some path) name
      = ((dom.elementAt path).map (·.attributes)).bind (fun a => lookup a name) := by
  cases h : dom.elementAt path <;> simp [NodeList.attrGet, h]

theorem attrGet_updateAttributesAt (dom : NodeList) (target path : Path)
    (change : Attributes → Attributes) (other : String) :
    (dom.updateAttributesAt target change).attrGet (some path) other
      = (dom.elementAt path).bind
          (fun e => lookup (if path = target then change e.attributes else e.attributes)
            other) := by
  rw [attrGet_eq, elementAt_updateAttributesAt_attributes]
  cases h : dom.elementAt path <;> simp

theorem isBooleanAttr_lowercase_ne (name : String) (hboolean : isBooleanAttr name = true) :
    lowercase name ≠ "" := by
  intro hempty
  simp only [isBooleanAttr, decide_eq_true_eq] at hboolean
  rw [hempty] at hboolean
  exact absurd hboolean (by decide)

theorem lookup_attrWrite (name value : String) (attributes : Attributes) (other : String)
    (hplain : isBooleanAttr name = false) :
    lookup (attrWrite name value attributes) other
      = if name = other then some value else lookup attributes other := by
  simp [attrWrite, hplain, lookup_put]

theorem attr_of_plain (element : Element) (name : String)
    (hplain : isBooleanAttr name = false) :
    element.attr name = lookup element.attributes name := by
  simp [Element.attr, hplain]

theorem attrWrite_of_attr (element : Element) (name value : String)
    (hvalue : element.attr name = some value) (attributes : Attributes) :
    attrWrite name value attributes = put attributes name value := by
  unfold Element.attr at hvalue
  unfold attrWrite
  cases hboolean : isBooleanAttr name with
  | false => simp
  | true =>
    have hne := isBooleanAttr_lowercase_ne name hboolean
    simp only [hboolean, if_true] at hvalue
    split at hvalue
    · cases hvalue
      simp [hne]
    · cases hvalue

theorem elementAt_attrAll (dom : NodeList) (tag name value : String) (path : Path) :
    ((dom.attrAll tag name value).elementAt path).map (fun e => (e.tagName, e.attributes))
      = (dom.elementAt path).map
          (fun e => (e.tagName,
            if e.tagName = tag then attrWrite name value e.attributes else e.attributes)) := by
  induction dom generalizing path with
  | nil => simp [NodeList.attrAll, NodeList.elementAt]
  | text data next ih =>
    rcases path with _ | ⟨_ | _, path⟩ <;> simp [NodeList.attrAll, NodeList.elementAt, ih]
  | element t attributes children next ihc ihn =>
    rcases path with _ | ⟨_ | _, path⟩ <;>
      simp [NodeList.attrAll, NodeList.elementAt, ihc, ihn]

theorem elementAt_findAttr (dom : NodeList) (tag name value : String) (path : Path)
    (e : Element) (hat : dom.elementAt path = some e) (htag : e.tagName ≠ tag) :
    ((dom.findAttr tag name value).elementAt path).map (fun e => (e.tagName, e.attributes))
      = some (e.tagName, e.attributes) := by
  induction dom generalizing path with
  | nil => simp [NodeList.elementAt] at hat
  | text data next ih =>
    rcases path with _ | ⟨_ | _, path⟩
    · simp [NodeList.elementAt] at hat
    · simp [NodeList.elementAt] at hat
    · simp only [NodeList.elementAt] at hat
      simpa [NodeList.findAttr, NodeList.elementAt] using ih path hat
  | element t attributes children next _ ihn =>
    rcases path with _ | ⟨_ | _, path⟩
    · simp only [NodeList.elementAt, Option.some.injEq] at hat
      subst hat
      simp [NodeList.findAttr, NodeList.elementAt]
    · simp only [NodeList.elementAt] at hat
      simp only [NodeList.findAttr, NodeList.elementAt]
      rw [elementAt_attrAll, hat]
      simp [htag]
    · simp only [NodeList.elementAt] at hat
      simpa [NodeList.findAttr, NodeList.elementAt] using ihn path hat

theorem attrGet_findAttr (dom : NodeList) (tag name value : String) (path : Path)
    (e : Element) (hat : dom.elementAt path = some e) (htag : e.tagName ≠ tag)
    (other : String) :
    (dom.findAttr tag name value).attrGet (some path) other
      = dom.attrGet (some path) other := by
  have h := elementAt_findAttr dom tag name value path e hat htag
  rw [attrGet_eq, attrGet_eq, hat]
  cases hf : (dom.findAttr tag name value).elementAt path with
  | none => simp [hf] at h
  | some f =>
    simp only [hf, Option.map_some', Option.some.injEq, Prod.mk.injEq] at h
    simp [h.2]

theorem attrAll_elements (dom : NodeList) (tag name value : String)
    (hplain : isBooleanAttr name = false) :
    ∀ r ∈ (dom.attrAll tag name value).elements, r.2.tagName = tag →
      lookup r.2.attributes name = some value := by
  induction dom with
  | nil => simp [NodeList.attrAll, NodeList.elements]
  | text data next ih =>
    intro r hr
    simp only [NodeList.attrAll, NodeList.elements, List.mem_map] at hr
    obtain ⟨r0, hr0, rfl⟩ := hr
    exact ih r0 hr0
  | element t attributes children next ihc ihn =>
    intro r hr
    simp only [NodeList.attrAll, NodeList.elements, List.mem_cons, List.mem_append,
      List.mem_map] at hr
    rcases hr with (rfl | ⟨r0, hr0, rfl⟩) | ⟨r0, hr0, rfl⟩
    · intro htag
      simp only at htag
      simp [htag, lookup_attrWrite, hplain]
    · exact ihc r0 hr0
    · exact ihn r0 hr0

theorem findAttr_find (dom : NodeList) (tag name value : String)
    (hplain : isBooleanAttr name = false) :
    ∀ r ∈ (dom.findAttr tag name value).find tag, r.2.attr name = some value := by
  intro r hr
  simp only [NodeList.find, List.mem_filter, decide_eq_true_eq] at hr
  obtain ⟨hmem, htag⟩ := hr
  rw [attr_of_plain r.2 name hplain]
  revert r
  induction dom with
  | nil => simp [NodeList.findAttr, NodeList.descendants]
  | text data next ih =>
    intro r hr htag
    simp only [NodeList.findAttr, NodeList.descendants, List.mem_map] at hr
    obtain ⟨r0, hr0, rfl⟩ := hr
    exact ih r0 hr0 htag
  | element t attributes children next _ ihn =>
    intro r hr htag
    simp only [NodeList.findAttr, NodeList.descendants, List.mem_append, List.mem_map] at hr
    rcases hr with ⟨r0, hr0, rfl⟩ | ⟨r0, hr0, rfl⟩
    · exact attrAll_elements children tag name value hplain r0 hr0 htag
    · exact ihn r0 hr0 htag

/-! ## The attribute copy loop -/

theorem copyAttributes_eq (attr : Dict String) (element : Element)
    (inputElement : Option Path) (newElement : NodeList) :
    copyAttributes attr element inputElement newElement
      = match attr.find? (fun entry => unsupported entry.1) with
        | some entry => .error (.error (entry.1
            ++ " directives are not supported on the same element as the field directive."))
        | none => .ok (attr.foldl
            (fun dom entry => dom.attrSet inputElement entry.2 (element.attr entry.2))
            newElement) := by
  induction attr generalizing newElement with
  | nil => simp [copyAttributes]
  | cons entry rest ih =>
    obtain ⟨normalized, original⟩ := entry
    unfold copyAttributes
    by_cases hbad : unsupported normalized = true
    · simp [hbad]
    · simp [hbad, ih]

theorem unsupported_iff (normalized : String) :
    unsupported normalized = true
      ↔ normalized = "ngRepeat" ∨ normalized = "ngSwitch" ∨ normalized = "uiIf" := by
  simp [unsupported]

theorem find_unsupported_eq_none (attr : Dict String) :
    attr.find? (fun entry => unsupported entry.1) = none
      ↔ ∀ normalized ∈ attr.map Prod.fst,
          ¬ (normalized = "ngRepeat" ∨ normalized = "ngSwitch" ∨ normalized = "uiIf") := by
  rw [List.find?_eq_none]
  constructor
  · intro h normalized hmem
    obtain ⟨entry, hentry, rfl⟩ := List.mem_map.mp hmem
    rw [← unsupported_iff]
    exact h entry hentry
  · intro h entry hentry
    rw [unsupported_iff]
    exact h entry.1 (List.mem_map.mpr ⟨entry, hentry, rfl⟩)

theorem attrSet_of_attr (dom : NodeList) (target : Path) (element : Element)
    (name : String) :
    dom.attrSet (some target) name (element.attr name)
      = match element.attr name with
        | some value => dom.updateAttributesAt target (fun a => put a name value)
        | none => dom := by
  cases hvalue : element.attr name with
  | none => rfl
  | some value =>
    simp only [NodeList.attrSet]
    congr 1
    funext attributes
    exact attrWrite_of_attr element name value hvalue attributes

theorem copied_elementAt_tagName (attr : Dict String) (element : Element) (target : Path)
    (dom : NodeList) (path : Path) :
    ((attr.foldl (fun dom entry => dom.attrSet (some target) entry.2 (element.attr entry.2))
        dom).elementAt path).map (·.tagName)
      = (dom.elementAt path).map (·.tagName) := by
  induction attr generalizing dom with
  | nil => simp
  | cons entry rest ih =>
    rw [List.foldl_cons, ih, attrSet_of_attr]
    cases hv : element.attr entry.2 with
    | none => rfl
    | some v => simp [elementAt_updateAttributesAt_tagName]

theorem copied_attrGet_stable (attr : Dict String) (element : Element) (target : Path)
    (dom : NodeList) (name value : String) (hvalue : element.attr name = some value)
    (hget : dom.attrGet (some target) name = some value) :
    (attr.foldl (fun dom entry => dom.attrSet (some target) entry.2 (element.attr entry.2))
        dom).attrGet (some target) name = some value := by
  induction attr generalizing dom with
  | nil => simpa using hget
  | cons entry rest ih =>
    rw [List.foldl_cons]
    apply ih
    rw [attrSet_of_attr]
    cases hv : element.attr entry.2 with
    | none => simpa using hget
    | some v =>
      simp only
      rw [attrGet_updateAttributesAt]
      rw [attrGet_eq] at hget
      cases hat : dom.elementAt target with
      | none => simp [hat] at hget
      | some e =>
        simp only [hat, Option.map_some', Option.some_bind] at hget
        by_cases hn : entry.2 = name
        · rw [hn, hvalue] at hv
          cases hv
          simp [hn, lookup_put]
        · simp [hn, hget, lookup_put]

theorem copied_attrGet (attr : Dict String) (element : Element) (target : Path)
    (dom : NodeList) (hat : (dom.elementAt target).isSome)
    (entry : String × String) (hentry : entry ∈ attr) (value : String)
    (hvalue : element.attr entry.2 = some value) :
    (attr.foldl (fun dom entry => dom.attrSet (some target) entry.2 (element.attr entry.2))
        dom).attrGet (some target) entry.2 = some value := by
  induction attr generalizing dom with
  | nil => simp at hentry
  | cons head rest ih =>
    rw [List.foldl_cons]
    rcases List.mem_cons.mp hentry with rfl | hrest
    · apply copied_attrGet_stable rest element target _ _ _ hvalue
      rw [attrSet_of_attr, hvalue]
      simp only
      rw [attrGet_updateAttributesAt]
      obtain ⟨e, he⟩ := Option.isSome_iff_exists.mp hat
      simp [he, lookup_put]
    · apply ih _ _ hrest
      rw [attrSet_of_attr]
      cases hv : element.attr head.2 with
      | none => simpa using hat
      | some v =>
        simp only
        have := elementAt_updateAttributesAt_tagName dom target target
          (fun a => put a head.2 v)
        cases h1 : (dom.updateAttributesAt target (fun a => put a head.2 v)).elementAt
            target with
        | some e1 => simp
        | none =>
          obtain ⟨e, he⟩ := Option.isSome_iff_exists.mp hat
          simp [h1, he] at this

theorem copied_attrGet_frame (attr : Dict String) (element : Element) (target : Path)
    (dom : NodeList) (path : Path) (name : String)
    (hname : path = target → name ∉ attr.map Prod.snd) :
    (attr.foldl (fun dom entry => dom.attrSet (some target) entry.2 (element.attr entry.2))
        dom).attrGet (some path) name = dom.attrGet (some path) name := by
  induction attr generalizing dom with
  | nil => simp
  | cons head rest ih =>
    rw [List.foldl_cons, ih]
    · rw [attrSet_of_attr]
      cases hv : element.attr head.2 with
      | none => rfl
      | some v =>
        simp only
        rw [attrGet_updateAttributesAt, attrGet_eq]
        cases hat : dom.elementAt path with
        | none => simp
        | some e =>
          by_cases hp : path = target
          · have hn : head.2 ≠ name := by
              intro hn
              exact hname hp (by simp [← hn])
            simp [hp, lookup_put, hn]
          · simp [hp]
    · intro hp hmem
      exact hname hp (by simp only [List.map_cons, List.mem_cons]; exact Or.inr hmem)

theorem attrSet_plain (dom : NodeList) (target : Path) (name value : String)
    (hplain : isBooleanAttr name = false) :
    dom.attrSet (some target) name (some value)
      = dom.updateAttributesAt target (fun a => put a name value) := by
  simp only [NodeList.attrSet]
  congr 1
  funext attributes
  simp [attrWrite, hplain]

/-! ## Setting attributes does not move elements -/

theorem updateAttributesAt_elements (dom : NodeList) (target : Path)
    (change : Attributes → Attributes) :
    (dom.updateAttributesAt target change).elements.map (fun r => (r.1, r.2.tagName))
      = dom.elements.map (fun r => (r.1, r.2.tagName)) := by
  induction dom generalizing target with
  | nil => simp [NodeList.updateAttributesAt]
  | text data next ih =>
    rcases target with _ | ⟨_ | _, target⟩ <;>
      simp [NodeList.updateAttributesAt, NodeList.elements]
    simpa [Function.comp_def] using congrArg
      (List.map fun r : Path × String => (Step.nextSibling :: r.1, r.2)) (ih target)
  | element tag attributes children next ihc ihn =>
    rcases target with _ | ⟨_ | _, target⟩ <;>
      simp [NodeList.updateAttributesAt, NodeList.elements]
    · simpa [Function.comp_def] using congrArg
        (List.map fun r : Path × String => (Step.firstChild :: r.1, r.2)) (ihc target)
    · simpa [Function.comp_def] using congrArg
        (List.map fun r : Path × String => (Step.nextSibling :: r.1, r.2)) (ihn target)

theorem updateAttributesAt_descendants (dom : NodeList) (target : Path)
    (change : Attributes → Attributes) :
    (dom.updateAttributesAt target change).descendants.map (fun r => (r.1, r.2.tagName))
      = dom.descendants.map (fun r => (r.1, r.2.tagName)) := by
  induction dom generalizing target with
  | nil => simp [NodeList.updateAttributesAt]
  | text data next ih =>
    rcases target with _ | ⟨_ | _, target⟩ <;>
      simp [NodeList.updateAttributesAt, NodeList.descendants]
    simpa [Function.comp_def] using congrArg
      (List.map fun r : Path × String => (Step.nextSibling :: r.1, r.2)) (ih target)
  | element tag attributes children next _ ihn =>
    rcases target with _ | ⟨_ | _, target⟩ <;>
      simp [NodeList.updateAttributesAt, NodeList.descendants]
    · simpa [Function.comp_def] using congrArg
        (List.map fun r : Path × String => (Step.firstChild :: r.1, r.2))
        (updateAttributesAt_elements children target change)
    · simpa [Function.comp_def] using congrArg
        (List.map fun r : Path × String => (Step.nextSibling :: r.1, r.2)) (ihn target)

theorem attrAll_elements_tags (dom : NodeList) (tag name value : String) :
    (dom.attrAll tag name value).elements.map (fun r => (r.1, r.2.tagName))
      = dom.elements.map (fun r => (r.1, r.2.tagName)) := by
  induction dom with
  | nil => simp [NodeList.attrAll]
  | text data next ih =>
    simp only [NodeList.attrAll, NodeList.elements, List.map_map]
    simpa [Function.comp_def] using congrArg
      (List.map fun r : Path × String => (Step.nextSibling :: r.1, r.2)) ih
  | element t attributes children next ihc ihn =>
    simp only [NodeList.attrAll, NodeList.elements, List.map_cons, List.map_append,
      List.map_map, List.cons.injEq, true_and]
    congr 1
    · simpa [Function.comp_def] using congrArg
        (List.map fun r : Path × String => (Step.firstChild :: r.1, r.2)) ihc
    · simpa [Function.comp_def] using congrArg
        (List.map fun r : Path × String => (Step.nextSibling :: r.1, r.2)) ihn

theorem findAttr_descendants (dom : NodeList) (tag name value : String) :
    (dom.findAttr tag name value).descendants.map (fun r => (r.1, r.2.tagName))
      = dom.descendants.map (fun r => (r.1, r.2.tagName)) := by
  induction dom with
  | nil => simp [NodeList.findAttr]
  | text data next ih =>
    simp only [NodeList.findAttr, NodeList.descendants, List.map_map]
    simpa [Function.comp_def] using congrArg
      (List.map fun r : Path × String => (Step.nextSibling :: r.1, r.2)) ih
  | element t attributes children next _ ihn =>
    simp only [NodeList.findAttr, NodeList.descendants, List.map_append, List.map_map]
    congr 1
    · simpa [Function.comp_def] using congrArg
        (List.map fun r : Path × String => (Step.firstChild :: r.1, r.2))
        (attrAll_elements_tags children tag name value)
    · simpa [Function.comp_def] using congrArg
        (List.map fun r : Path × String => (Step.nextSibling :: r.1, r.2)) ihn

theorem first_with_tag (found other : List (Path × Element)) (tag : String)
    (hsame : found.map (fun r => (r.1, r.2.tagName))
      = other.map (fun r => (r.1, r.2.tagName))) :
    ((found.filter fun r => decide (r.2.tagName = tag)).head?).map (·.1)
      = ((other.filter fun r => decide (r.2.tagName = tag)).head?).map (·.1) := by
  induction found generalizing other with
  | nil =>
    cases other with
    | nil => rfl
    | cons o rest => simp at hsame
  | cons f front ih =>
    cases other with
    | nil => simp at hsame
    | cons o rest =>
      simp only [List.map_cons, List.cons.injEq, Prod.mk.injEq] at hsame
      obtain ⟨⟨hpath, htag⟩, hrest⟩ := hsame
      by_cases hf : f.2.tagName = tag
      · have ho : o.2.tagName = tag := by rw [← htag, hf]
        simp [List.filter_cons, hf, ho, hpath]
      · have ho : ¬ o.2.tagName = tag := by rw [← htag]; exact hf
        simpa [List.filter_cons, hf, ho] using ih rest hrest

theorem findInputElement_eq (dom : NodeList) :
    findInputElement dom
      = (((dom.find "input").head?.map (·.1)).orElse fun _ =>
          ((dom.find "select").head?.map (·.1))).orElse fun _ =>
          ((dom.find "textarea").head?.map (·.1)) := by
  unfold findInputElement
  cases (dom.find "input").head? <;> cases (dom.find "select").head? <;>
    cases (dom.find "textarea").head? <;> rfl

theorem findInputElement_congr (dom other : NodeList)
    (hsame : dom.descendants.map (fun r => (r.1, r.2.tagName))
      = other.descendants.map (fun r => (r.1, r.2.tagName))) :
    findInputElement dom = findInputElement other := by
  rw [findInputElement_eq, findInputElement_eq]
  unfold NodeList.find
  rw [first_with_tag _ _ "input" hsame, first_with_tag _ _ "select" hsame,
    first_with_tag _ _ "textarea" hsame]

theorem attrSet_descendants (dom : NodeList) (wrapped : Option Path) (name : String)
    (value : Option String) :
    (dom.attrSet wrapped name value).descendants.map (fun r => (r.1, r.2.tagName))
      = dom.descendants.map (fun r => (r.1, r.2.tagName)) := by
  cases wrapped <;> cases value <;>
    simp [NodeList.attrSet, updateAttributesAt_descendants]

theorem copied_descendants (attr : Dict String) (element : Element)
    (wrapped : Option Path) (dom : NodeList) :
    (attr.foldl (fun dom entry => dom.attrSet wrapped entry.2 (element.attr entry.2))
        dom).descendants.map (fun r => (r.1, r.2.tagName))
      = dom.descendants.map (fun r => (r.1, r.2.tagName)) := by
  induction attr generalizing dom with
  | nil => simp
  | cons entry rest ih => rw [List.foldl_cons, ih, attrSet_descendants]

/-! ## The link function -/

theorem link_eq {α : Type} (host : Host α) (messageMap : Dict α) (labelContent : String)
    (element : Element) (attrs : Attrs) (childScopeId : String) :
    link host messageMap labelContent element attrs childScopeId
      = match loadTemplate host
            (if truthy attrs.template then attrs.template.getD "" else "input.html") with
        | .error e => (⟨some messageMap, element, none⟩, .error e)
        | .ok newElement =>
          match templateLoaded host labelContent element attrs childScopeId newElement with
          | .error e => (⟨some messageMap, element, none⟩, .error e)
          | .ok linked =>
            (⟨some messageMap, linked.element,
              some (linked.newElement, linked.childScope)⟩, .ok ()) := rfl

theorem templateLoaded_undefined_model {α : Type} (host : Host α) (labelContent : String)
    (element : Element) (attrs : Attrs) (childScopeId : String) (newElement : NodeList)
    (hmodel : attrs.ngModel = none) :
    templateLoaded host labelContent element attrs childScopeId newElement
      = .error .typeError := by
  simp [templateLoaded, hmodel]

theorem templateLoaded_error {α : Type} (host : Host α) (labelContent : String)
    (element : Element) (attrs : Attrs) (childScopeId : String) (newElement : NodeList)
    (ngModel : String) (hmodel : attrs.ngModel = some ngModel) (e : JsError)
    (hcopy : copyAttributes attrs.attr element
        (findInputElement (newElement.findHtml "label" (host.parseHTML labelContent)))
        (newElement.findHtml "label" (host.parseHTML labelContent)) = .error e) :
    templateLoaded host labelContent element attrs childScopeId newElement = .error e := by
  simp only [templateLoaded, hmodel, hcopy]

theorem templateLoaded_ok {α : Type} (host : Host α) (labelContent : String)
    (element : Element) (attrs : Attrs) (childScopeId : String) (newElement : NodeList)
    (ngModel : String) (hmodel : attrs.ngModel = some ngModel) (copied : NodeList)
    (hcopy : copyAttributes attrs.attr element
        (findInputElement (newElement.findHtml "label" (host.parseHTML labelContent)))
        (newElement.findHtml "label" (host.parseHTML labelContent)) = .ok copied)
    (wired : NodeList)
    (hwired : wired
      = ((copied.attrSet
            (findInputElement (newElement.findHtml "label" (host.parseHTML labelContent)))
            "name" (some (fieldId host.toLowerCase ngModel childScopeId))).attrSet
            (findInputElement (newElement.findHtml "label" (host.parseHTML labelContent)))
            "id" (some (fieldId host.toLowerCase ngModel childScopeId))).findAttr
          "label" "for" (fieldId host.toLowerCase ngModel childScopeId)) :
    templateLoaded host labelContent element attrs childScopeId newElement
      = .ok ⟨⟨element.tagName, element.attributes, element.childNodes.append wired⟩, wired,
          ⟨childScopeId, fieldId host.toLowerCase ngModel childScopeId, labelContent⟩⟩ := by
  subst hwired
  simp only [templateLoaded, hmodel, hcopy]

theorem templateLoaded_fieldId {α : Type} (host : Host α) (labelContent : String)
    (element : Element) (attrs : Attrs) (childScopeId : String) (newElement : NodeList)
    (linked : Linked)
    (hrun : templateLoaded host labelContent element attrs childScopeId newElement = .ok linked) :
    linked.childScope.fieldId
      = fieldId host.toLowerCase (attrs.ngModel.getD "") childScopeId := by
  cases hmodel : attrs.ngModel with
  | none =>
    rw [templateLoaded_undefined_model host labelContent element attrs childScopeId
      newElement hmodel] at hrun
    cases hrun
  | some ngModel =>
    cases hcopy : copyAttributes attrs.attr element
        (findInputElement (newElement.findHtml "label" (host.parseHTML labelContent)))
        (newElement.findHtml "label" (host.parseHTML labelContent)) with
    | error e =>
      rw [templateLoaded_error host labelContent element attrs childScopeId newElement
        ngModel hmodel e hcopy] at hrun
      cases hrun
    | ok copied =>
      rw [templateLoaded_ok host labelContent element attrs childScopeId newElement
        ngModel hmodel copied hcopy _ rfl] at hrun
      cases hrun
      rfl

theorem loadTemplate_eq {α : Type} (host : Host α) (template : String) :
    loadTemplate host template
      = match host.httpGet template with
        | some data => angular.element host data
        | none => .error (.error ("Template not found: " ++ template)) := rfl

theorem angular_element_markup {α : Type} (host : Host α) (html : String)
    (hmarkup : html.data.head? = some '<') :
    angular.element host html = .ok (host.parseHTML html) := by
  simp [angular.element, hmarkup]

theorem angular_element_other {α : Type} (host : Host α) (html : String)
    (hother : html.data.head? ≠ some '<') :
    angular.element host html = .error (.error "selectors not implemented") := by
  simp [angular.element, hother]

theorem compile_element {α : Type} (host : Host α) (element : Element) (attrs : Attrs)
    (c : Compiled α) (hc : compile host element attrs = .ok c) :
    c.element = { element with childNodes := .nil }
      ∧ getValidationMessageMap host element = .ok c.messageMap
      ∧ extractLabelContent element attrs = .ok c.labelContent := by
  unfold compile at hc
  cases hm : getValidationMessageMap host element with
  | error e => simp [hm] at hc
  | ok messageMap =>
    cases hx : extractLabelContent element attrs with
    | error e => simp [hm, hx] at hc
    | ok labelContent =>
      simp only [hm, hx, Except.ok.injEq] at hc
      subst hc
      exact ⟨rfl, rfl, rfl⟩

/-! ## The watch kept by `bindValidationMessage` -/

theorem observe_watchers {α : Type} (messageMap : Dict α) (state : BindState α)
    (key : String) (hheld : ∀ w ∈ state.watchers, state.removeWatch = some w.1) :
    (observe messageMap state key).watchers
        = (if key ≠ "" then
            match read messageMap key with
            | some getMessage => [(state.nextHandle, getMessage)]
            | none => []
          else [])
      ∧ ∀ w ∈ (observe messageMap state key).watchers,
          (observe messageMap state key).removeWatch = some w.1 := by
  have hremoved : ∀ st : BindState α,
      st = (match state.removeWatch with
        | some handle =>
          { state with watchers := state.watchers.filter (fun w => decide (w.1 ≠ handle)),
                       removeWatch := none }
        | none => state) →
      st.watchers = [] ∧ st.removeWatch = none ∧ st.nextHandle = state.nextHandle := by
    intro st hst
    cases hrem : state.removeWatch with
    | none =>
      rw [hrem] at hst
      subst hst
      refine ⟨?_, hrem, rfl⟩
      apply List.eq_nil_iff_forall_not_mem.mpr
      intro w hw
      have := hheld w hw
      rw [hrem] at this
      cases this
    | some handle =>
      rw [hrem] at hst
      subst hst
      refine ⟨?_, rfl, rfl⟩
      apply List.eq_nil_iff_forall_not_mem.mpr
      intro w hw
      simp only [List.mem_filter, decide_eq_true_eq] at hw
      have := hheld w hw.1
      rw [hrem] at this
      cases this
      exact hw.2 rfl
  obtain ⟨hw, hr, hn⟩ := hremoved _ rfl
  unfold observe
  by_cases hkey : key = ""
  · simp only [hkey, ne_eq, not_true_eq_false, if_false]
    rw [hw]
    simp
  · cases hl : read messageMap key with
    | none =>
      simp only [hkey, ne_eq, not_false_eq_true, if_true, hl]
      rw [hw]
      simp
    | some getMessage =>
      simp only [hkey, ne_eq, not_false_eq_true, if_true, hl]
      rw [hw, hn]
      simp

theorem observeAll_snoc {α : Type} (messageMap : Dict α) (keys : List String)
    (key : String) :
    observeAll messageMap (keys ++ [key])
      = observe messageMap (observeAll messageMap keys) key := by
  simp [observeAll, List.foldl_append]

theorem observeAll_held {α : Type} (messageMap : Dict α) (keys : List String) :
    ∀ w ∈ (observeAll messageMap keys).watchers,
      (observeAll messageMap keys).removeWatch = some w.1 := by
  induction keys using List.reverseRecOn with
  | nil => simp [observeAll, BindState.initial]
  | append_singleton front key ih =>
    rw [observeAll_snoc]
    exact (observe_watchers messageMap _ key ih).2

theorem observeAll_watchers {α : Type} (messageMap : Dict α) (keys : List String)
    (key : String) :
    (observeAll messageMap (keys ++ [key])).watchers
      = if key ≠ "" then
          match read messageMap key with
          | some getMessage => [((observeAll messageMap keys).nextHandle, getMessage)]
          | none => []
        else [] := by
  rw [observeAll_snoc]
  exact (observe_watchers messageMap _ key (observeAll_held messageMap keys)).1

theorem observeAll_length_le {α : Type} (messageMap : Dict α) (keys : List String) :
    (observeAll messageMap keys).watchers.length ≤ 1 := by
  induction keys using List.reverseRecOn with
  | nil => simp [observeAll, BindState.initial]
  | append_singleton front key _ =>
    rw [observeAll_watchers]
    by_cases hkey : key = ""
    · simp [hkey]
    · cases hl : read messageMap key <;> simp [hkey]

/-! ## The wiring of the input and its label -/

theorem templateLoaded_completes {α : Type} (host : Host α) (labelContent : String)
    (element : Element) (attrs : Attrs) (childScopeId : String) (newElement : NodeList)
    (ngModel : String) (hmodel : attrs.ngModel = some ngModel)
    (hnone : attrs.attr.find? (fun entry => unsupported entry.1) = none) :
    ∃ linked,
      templateLoaded host labelContent element attrs childScopeId newElement = .ok linked
      ∧ linked.childScope.fieldId = fieldId host.toLowerCase ngModel childScopeId
      ∧ linked.element.childNodes = element.childNodes.append linked.newElement
      ∧ findInputElement linked.newElement
          = findInputElement (newElement.findHtml "label" (host.parseHTML labelContent))
      ∧ (∀ inputElement,
          findInputElement (newElement.findHtml "label" (host.parseHTML labelContent))
            = some inputElement →
          linked.newElement.attrGet (some inputElement) "name"
              = some linked.childScope.fieldId
          ∧ linked.newElement.attrGet (some inputElement) "id"
              = some linked.childScope.fieldId)
      ∧ (∀ label ∈ linked.newElement.find "label",
          label.2.attr "for" = some linked.childScope.fieldId) := by
  have hcopy := copyAttributes_eq attrs.attr element
    (findInputElement (newElement.findHtml "label" (host.parseHTML labelContent)))
    (newElement.findHtml "label" (host.parseHTML labelContent))
  rw [hnone] at hcopy
  refine ⟨_, templateLoaded_ok host labelContent element attrs childScopeId newElement
    ngModel hmodel _ hcopy _ rfl, rfl, rfl, ?_, ?_, ?_⟩
  · apply findInputElement_congr
    rw [findAttr_descendants, attrSet_descendants, attrSet_descendants, copied_descendants]
  · intro inputElement hinput
    obtain ⟨e, he, htag⟩ := findInputElement_elementAt _ inputElement hinput
    simp only [hinput]
    have hcopied := copied_elementAt_tagName attrs.attr element inputElement
      (newElement.findHtml "label" (host.parseHTML labelContent)) inputElement
    generalize attrs.attr.foldl
      (fun dom entry => dom.attrSet (some inputElement) entry.2 (element.attr entry.2))
      (newElement.findHtml "label" (host.parseHTML labelContent)) = copied at hcopied ⊢
    generalize fieldId host.toLowerCase ngModel childScopeId = generated
    rw [he] at hcopied
    rw [attrSet_plain copied inputElement "name" generated (by decide),
      attrSet_plain _ inputElement "id" generated (by decide)]
    obtain ⟨e1, he1, htag1⟩ : ∃ e1, copied.elementAt inputElement = some e1
        ∧ e1.tagName = e.tagName := by
      cases h : copied.elementAt inputElement with
      | none => simp [h] at hcopied
      | some e1 => exact ⟨e1, rfl, by simpa [h] using hcopied⟩
    have hname := elementAt_updateAttributesAt_tagName copied inputElement inputElement
      (fun a => put a "name" generated)
    rw [he1] at hname
    obtain ⟨e2, he2, htag2⟩ : ∃ e2,
        (copied.updateAttributesAt inputElement
          (fun a => put a "name" generated)).elementAt inputElement = some e2
        ∧ e2.tagName = e1.tagName := by
      cases h : (copied.updateAttributesAt inputElement
          (fun a => put a "name" generated)).elementAt inputElement with
      | none => simp [h] at hname
      | some e2 => exact ⟨e2, rfl, by simpa [h] using hname⟩
    have hid := elementAt_updateAttributesAt_tagName
      (copied.updateAttributesAt inputElement (fun a => put a "name" generated))
      inputElement inputElement (fun a => put a "id" generated)
    rw [he2] at hid
    obtain ⟨e3, he3, htag3⟩ : ∃ e3,
        ((copied.updateAttributesAt inputElement
          (fun a => put a "name" generated)).updateAttributesAt inputElement
          (fun a => put a "id" generated)).elementAt inputElement = some e3
        ∧ e3.tagName = e2.tagName := by
      cases h : ((copied.updateAttributesAt inputElement
          (fun a => put a "name" generated)).updateAttributesAt inputElement
          (fun a => put a "id" generated)).elementAt inputElement with
      | none => simp [h] at hid
      | some e3 => exact ⟨e3, rfl, by simpa [h] using hid⟩
    have hnotlabel : e3.tagName ≠ "label" := by
      rw [htag3, htag2, htag1]
      rcases htag with h | h | h <;> rw [h] <;> decide
    rw [attrGet_findAttr _ _ _ _ _ e3 he3 hnotlabel, attrGet_findAttr _ _ _ _ _ e3 he3 hnotlabel]
    have hkeep := attrGet_updateAttributesAt copied inputElement inputElement
      (fun a => put a "name" generated) "name"
    rw [attrGet_eq, he2, he1] at hkeep
    simp only [Option.map_some', Option.some_bind, if_true, lookup_put] at hkeep
    constructor
    · rw [attrGet_updateAttributesAt, he2]
      simp [lookup_put, hkeep]
    · rw [attrGet_updateAttributesAt, he2]
      simp [lookup_put]
  · intro label hlabel
    exact findAttr_find _ "label" "for" _ (by decide) label hlabel

theorem templateLoaded_ok_inv {α : Type} (host : Host α) (labelContent : String)
    (element : Element) (attrs : Attrs) (childScopeId : String) (newElement : NodeList)
    (linked : Linked)
    (hrun : templateLoaded host labelContent element attrs childScopeId newElement = .ok linked) :
    (∃ ngModel, attrs.ngModel = some ngModel)
      ∧ attrs.attr.find? (fun entry => unsupported entry.1) = none := by
  cases hmodel : attrs.ngModel with
  | none =>
    rw [templateLoaded_undefined_model host labelContent element attrs childScopeId
      newElement hmodel] at hrun
    cases hrun
  | some ngModel =>
    refine ⟨⟨ngModel, rfl⟩, ?_⟩
    cases hf : attrs.attr.find? (fun entry => unsupported entry.1) with
    | none => rfl
    | some entry =>
      have hcopy := copyAttributes_eq attrs.attr element
        (findInputElement (newElement.findHtml "label" (host.parseHTML labelContent)))
        (newElement.findHtml "label" (host.parseHTML labelContent))
      rw [hf] at hcopy
      rw [templateLoaded_error host labelContent element attrs childScopeId newElement
        ngModel hmodel _ hcopy] at hrun
      cases hrun

/-! ## Claims -/

/-- C1, as stated, fails: with no label attribute, an empty first `label` and a second
`label` that has content, `extractLabelContent` throws although a `label` with non-empty
html is there. -/
theorem extractLabelContent_throws_despite_label :
    ¬ (extractLabelContent twoLabels unlabelledAttrs = .error (.error "No label provided")
        ↔ (truthy unlabelledAttrs.fieldLabel = false
            ∧ ¬ ∃ label ∈ twoLabels.find "label", label.html ≠ "")) := by
  decide

/-- C1, amended: `extractLabelContent` throws `No label provided` exactly when the label
attribute is absent or empty and the element has no `label` descendant or the html of
its FIRST `label` descendant is empty; in every other case it returns a non-empty
string. -/
theorem extractLabelContent_throws_iff (originalElement : Element) (attrs : Attrs) :
    (extractLabelContent originalElement attrs = .error (.error "No label provided")
      ↔ (truthy attrs.fieldLabel = false
          ∧ ∀ label, (originalElement.find "label").head? = some label → label.html = ""))
    ∧ (¬ (truthy attrs.fieldLabel = false
          ∧ ∀ label, (originalElement.find "label").head? = some label → label.html = "")
        → ∃ content, content ≠ "" ∧ extractLabelContent originalElement attrs = .ok content) := by
  cases hattr : truthy attrs.fieldLabel with
  | true =>
    obtain ⟨s, hs, hne⟩ := (truthy_eq_true _).mp hattr
    rw [extractLabelContent_attribute originalElement attrs s hs hne]
    simp [hne]
  | false =>
    cases hfirst : (originalElement.find "label").head? with
    | none =>
      rw [extractLabelContent_none originalElement attrs hattr hfirst]
      simp
    | some label =>
      rw [extractLabelContent_child originalElement attrs hattr label hfirst]
      by_cases hhtml : label.html = "" <;> simp [hhtml]

/-- C1, amended, at a concrete input: `twoLabels` without a label attribute throws,
because its first `label` is empty. -/
theorem extractLabelContent_throws_iff_witness :
    extractLabelContent twoLabels unlabelledAttrs = .error (.error "No label provided") :=
  (extractLabelContent_throws_iff twoLabels unlabelledAttrs).1.mpr
    ⟨by decide, by decide⟩

/-- C2: a non-empty label attribute is returned as it is, whatever `label` children the
element has; the html of the first `label` is returned when the attribute is absent or
empty, and a returned content other than the attribute comes from that `label`. -/
theorem extractLabelContent_attribute_trumps (originalElement : Element) (attrs : Attrs) :
    (∀ label, attrs.fieldLabel = some label → label ≠ "" →
        extractLabelContent originalElement attrs = .ok label)
    ∧ (∀ label, truthy attrs.fieldLabel = false →
        (originalElement.find "label").head? = some label → label.html ≠ "" →
        extractLabelContent originalElement attrs = .ok label.html)
    ∧ (∀ content, extractLabelContent originalElement attrs = .ok content →
        attrs.fieldLabel ≠ some content →
        (attrs.fieldLabel = none ∨ attrs.fieldLabel = some "")
          ∧ ∃ label, (originalElement.find "label").head? = some label
              ∧ label.html = content) := by
  refine ⟨fun label h hne => extractLabelContent_attribute originalElement attrs label h hne,
    ?_, ?_⟩
  · intro label hattr hfirst hhtml
    rw [extractLabelContent_child originalElement attrs hattr label hfirst]
    simp [hhtml]
  · intro content hok hother
    cases hattr : truthy attrs.fieldLabel with
    | true =>
      obtain ⟨s, hs, hne⟩ := (truthy_eq_true _).mp hattr
      rw [extractLabelContent_attribute originalElement attrs s hs hne] at hok
      cases hok
      exact absurd hs hother
    | false =>
      have hvalue : attrs.fieldLabel = none ∨ attrs.fieldLabel = some "" := by
        cases hv : attrs.fieldLabel with
        | none => exact Or.inl rfl
        | some s =>
          rw [hv] at hattr
          simp [truthy] at hattr
          simp [hattr]
      refine ⟨hvalue, ?_⟩
      cases hfirst : (originalElement.find "label").head? with
      | none =>
        rw [extractLabelContent_none originalElement attrs hattr hfirst] at hok
        cases hok
      | some label =>
        rw [extractLabelContent_child originalElement attrs hattr label hfirst] at hok
        by_cases hhtml : label.html = ""
        · simp [hhtml] at hok
        · simp only [hhtml, if_false] at hok
          cases hok
          exact ⟨label, rfl, rfl⟩

/-- C2 at a concrete input: the label attribute `Your name` wins over the two `label`
children of `twoLabels`. -/
theorem extractLabelContent_attribute_trumps_witness :
    extractLabelContent twoLabels labelledAttrs = .ok "Your name" :=
  (extractLabelContent_attribute_trumps twoLabels labelledAttrs).1 "Your name" rfl
    (by decide)

/-- C4: on `user.address.city` the code replaces the first dot only, so the generated id
keeps a dot. -/
theorem fieldId_replaces_first_dot_only :
    fieldId asciiLowerCase "user.address.city" "005" = "user_address.city_005"
      ∧ '.' ∈ (asciiLowerCase (replace "user.address.city" '.' '_')).data := by
  decide

/-- C5: the generated id is a function of the `ng-model` expression and the child scope
id only, and two distinct scope ids without an underscore give different ids, whatever
the two `ng-model` expressions are. -/
theorem fieldId_unique {α : Type} (host : Host α) (ngModel₁ ngModel₂ scopeId₁ scopeId₂ : String)
    (h₁ : '_' ∉ scopeId₁.data) (h₂ : '_' ∉ scopeId₂.data) (hne : scopeId₁ ≠ scopeId₂) :
    fieldId host.toLowerCase ngModel₁ scopeId₁ ≠ fieldId host.toLowerCase ngModel₂ scopeId₂
    ∧ ∀ (labelContent₁ labelContent₂ : String) (element₁ element₂ : Element)
        (attrs₁ attrs₂ : Attrs) (template₁ template₂ : NodeList) (linked₁ linked₂ : Linked),
        attrs₁.ngModel = attrs₂.ngModel →
        templateLoaded host labelContent₁ element₁ attrs₁ scopeId₁ template₁ = .ok linked₁ →
        templateLoaded host labelContent₂ element₂ attrs₂ scopeId₁ template₂ = .ok linked₂ →
        linked₁.childScope.fieldId = linked₂.childScope.fieldId := by
  constructor
  · intro heq
    have hdata := congrArg String.data heq
    rw [fieldId_data, fieldId_data] at hdata
    have := tail_after_last_underscore _ _ _ _ h₁ h₂ hdata
    exact hne (String.ext this)
  · intro labelContent₁ labelContent₂ element₁ element₂ attrs₁ attrs₂ template₁ template₂
      linked₁ linked₂ hmodel hrun₁ hrun₂
    rw [templateLoaded_fieldId host labelContent₁ element₁ attrs₁ scopeId₁ template₁ linked₁ hrun₁,
      templateLoaded_fieldId host labelContent₂ element₂ attrs₂ scopeId₁ template₂ linked₂ hrun₂,
      hmodel]

/-- C5 at a concrete input: the scope ids `005` and `006` give different ids for the same
expression. -/
theorem fieldId_unique_witness :
    '_' ∉ "005".data ∧ '_' ∉ "006".data ∧ "005" ≠ "006"
      ∧ fieldId exampleHost.toLowerCase "user.name" "005"
          ≠ fieldId exampleHost.toLowerCase "user.name" "006" :=
  ⟨by decide, by decide, by decide,
    (fieldId_unique exampleHost "user.name" "user.name" "005" "006"
      (by decide) (by decide) (by decide)).1⟩

/-- C7, as stated, fails in both directions: a `validator` without a `key` attribute is
stored under the property name `undefined`, a key no `validator` carries, and a
`validator` with the key `__proto__` leaves no entry in the map. -/
theorem getValidationMessageMap_keyless_entry :
    (∃ map, getValidationMessageMap exampleHost keylessValidator = .ok map
      ∧ ¬ ((lookup map "undefined").isSome
          ↔ ∃ validator ∈ keylessValidator.find "validator",
              validator.attr "key" = some "undefined"))
    ∧ (∃ map, getValidationMessageMap exampleHost protoValidator = .ok map
      ∧ ¬ ((lookup map "__proto__").isSome
          ↔ ∃ validator ∈ protoValidator.find "validator",
              validator.attr "key" = some "__proto__")) :=
  ⟨⟨[("undefined", "Required")], by decide, by decide⟩, ⟨[], by decide, by decide⟩⟩

/-- C7, amended: `getValidationMessageMap` returns a map whenever the text of every
`validator` descendant interpolates; the map has an entry for `k` exactly when `k` is not
`__proto__` and some `validator` descendant is stored under `k`, that is, has the key
attribute `k`, or has no key attribute while `k` is `undefined`; the entry is the
interpolation function of the text of the last such descendant in document order; and
without `validator` descendants the map is empty. -/
theorem getValidationMessageMap_entries {α : Type} (host : Host α)
    (originalElement : Element) :
    ((∀ validator ∈ originalElement.find "validator",
        ∃ getMessage, host.interpolate validator.text = .ok getMessage) →
      ∃ map, getValidationMessageMap host originalElement = .ok map)
    ∧ (originalElement.find "validator" = [] →
        getValidationMessageMap host originalElement = .ok [])
    ∧ ∀ map, getValidationMessageMap host originalElement = .ok map →
        (∀ k, (lookup map k).isSome
          ↔ k ≠ "__proto__"
            ∧ ∃ validator ∈ originalElement.find "validator",
                propertyKey (validator.attr "key") = k)
        ∧ (∀ k front validator back,
            originalElement.find "validator" = front ++ validator :: back →
            propertyKey (validator.attr "key") = k → k ≠ "__proto__" →
            (∀ later ∈ back, propertyKey (later.attr "key") ≠ k) →
            ∃ getMessage, host.interpolate validator.text = .ok getMessage
              ∧ lookup map k = some getMessage) := by
  refine ⟨fun hall => storeMessages_completes host _ [] hall, ?_, ?_⟩
  · intro hnone
    simp [getValidationMessageMap, hnone, storeMessages]
  · intro map hmap
    unfold getValidationMessageMap at hmap
    have hall := storeMessages_interpolated host _ [] map hmap
    have hlookup := storeMessages_lookup host _ map hmap
    constructor
    · intro k
      rw [hlookup k]
      by_cases hproto : k = "__proto__"
      · simp [hproto]
      · simp only [hproto, if_false, ne_eq, not_false_eq_true, true_and]
        cases hfound : (originalElement.find "validator").reverse.find?
            (fun validator => decide (propertyKey (validator.attr "key") = k)) with
        | none =>
          simp only [Option.isSome_none, Bool.false_eq_true, false_iff, not_exists, not_and]
          intro validator hmem
          have := List.find?_eq_none.mp hfound validator (List.mem_reverse.mpr hmem)
          simpa using this
        | some validator =>
          have hmem := List.mem_reverse.mp (List.mem_of_find?_eq_some hfound)
          obtain ⟨getMessage, hmessage⟩ := hall validator hmem
          simp only [hmessage, Except.toOption, Option.isSome_some, true_iff]
          exact ⟨validator, hmem, by simpa using List.find?_some hfound⟩
    · intro k front validator back hsplit hk hproto hback
      have hmem : validator ∈ originalElement.find "validator" := by
        rw [hsplit]; simp
      obtain ⟨getMessage, hmessage⟩ := hall validator hmem
      refine ⟨getMessage, hmessage, ?_⟩
      rw [hlookup k, hsplit]
      have hlater : back.reverse.find?
          (fun later => decide (propertyKey (later.attr "key") = k)) = none := by
        apply List.find?_eq_none.mpr
        intro later hl
        simpa using hback later (List.mem_reverse.mp hl)
      simp [hproto, List.find?_append, hlater, hk, hmessage, Except.toOption]

/-- C7 at a concrete input: of two validators with the key `required`, the second one
provides the message. -/
theorem getValidationMessageMap_entries_witness :
    getValidationMessageMap exampleHost twoValidators = .ok [("required", "Please fill in")]
      ∧ ∃ getMessage, exampleHost.interpolate "Please fill in" = .ok getMessage
          ∧ lookup [("required", "Please fill in")] "required" = some getMessage :=
  ⟨by decide,
    ((getValidationMessageMap_entries exampleHost twoValidators).2.2
      [("required", "Please fill in")] (by decide)).2 "required"
      [⟨"validator", [("key", "required")], .text "Required" .nil⟩]
      ⟨"validator", [("key", "required")], .text "Please fill in" .nil⟩ []
      (by decide) (by decide) (by decide) (by simp)⟩

/-- C3: the attribute-copy loop throws exactly when `$attr` has one of the keys `ngRepeat`,
`ngSwitch`, `uiIf`; the message is that key followed by the fixed text; and a field with
such a key ends `link` with a rejected promise, nothing handed to `$compile` and the
element as empty as `compile` left it. -/
theorem unsupported_directive_rejected {α : Type} (host : Host α) (element : Element)
    (attrs : Attrs) (childScopeId : String) (inputElement : Option Path)
    (newElement : NodeList) :
    ((∃ e, copyAttributes attrs.attr element inputElement newElement = .error e)
      ↔ ∃ normalized ∈ attrs.attr.map Prod.fst,
          normalized = "ngRepeat" ∨ normalized = "ngSwitch" ∨ normalized = "uiIf")
    ∧ (∀ e, copyAttributes attrs.attr element inputElement newElement = .error e →
        ∃ normalized ∈ attrs.attr.map Prod.fst,
          (normalized = "ngRepeat" ∨ normalized = "ngSwitch" ∨ normalized = "uiIf")
          ∧ e = .error (normalized
              ++ " directives are not supported on the same element as the field directive."))
    ∧ (∀ c, compile host element attrs = .ok c →
        (∃ normalized ∈ attrs.attr.map Prod.fst,
          normalized = "ngRepeat" ∨ normalized = "ngSwitch" ∨ normalized = "uiIf") →
        (link host c.messageMap c.labelContent c.element attrs childScopeId).1.compiled = none
        ∧ (link host c.messageMap c.labelContent c.element attrs childScopeId).1.element.childNodes
            = .nil
        ∧ (link host c.messageMap c.labelContent c.element attrs childScopeId).2 ≠ .ok ()
        ∧ ((∀ template, ∃ loaded, loadTemplate host template = .ok loaded) →
            attrs.ngModel ≠ none →
            ∃ normalized ∈ attrs.attr.map Prod.fst,
              (normalized = "ngRepeat" ∨ normalized = "ngSwitch" ∨ normalized = "uiIf")
              ∧ (link host c.messageMap c.labelContent c.element attrs childScopeId).2
                  = .error (.error (normalized
                    ++ " directives are not supported on the same element as the field directive.")))) := by
  have hfind : ∀ (el : Element) (inp : Option Path) (dom : NodeList),
      (∃ normalized ∈ attrs.attr.map Prod.fst,
          normalized = "ngRepeat" ∨ normalized = "ngSwitch" ∨ normalized = "uiIf") →
      ∃ normalized ∈ attrs.attr.map Prod.fst,
          (normalized = "ngRepeat" ∨ normalized = "ngSwitch" ∨ normalized = "uiIf")
          ∧ copyAttributes attrs.attr el inp dom = .error (.error (normalized
              ++ " directives are not supported on the same element as the field directive.")) := by
    intro el inp dom hbad
    rw [copyAttributes_eq]
    cases hf : attrs.attr.find? (fun entry => unsupported entry.1) with
    | none =>
      obtain ⟨normalized, hmem, hn⟩ := hbad
      exact absurd hn ((find_unsupported_eq_none attrs.attr).mp hf normalized hmem)
    | some entry =>
      refine ⟨entry.1, List.mem_map.mpr ⟨entry, List.mem_of_find?_eq_some hf, rfl⟩, ?_, rfl⟩
      exact (unsupported_iff entry.1).mp (by simpa using List.find?_some hf)
  have hcopy : ∀ (el : Element) (inp : Option Path) (dom : NodeList) (e : JsError),
      copyAttributes attrs.attr el inp dom = .error e →
      ∃ normalized ∈ attrs.attr.map Prod.fst,
          (normalized = "ngRepeat" ∨ normalized = "ngSwitch" ∨ normalized = "uiIf")
          ∧ e = .error (normalized
              ++ " directives are not supported on the same element as the field directive.") := by
    intro el inp dom e he
    rw [copyAttributes_eq] at he
    cases hf : attrs.attr.find? (fun entry => unsupported entry.1) with
    | none => simp [hf] at he
    | some entry =>
      simp only [hf, Except.error.injEq] at he
      refine ⟨entry.1, List.mem_map.mpr ⟨entry, List.mem_of_find?_eq_some hf, rfl⟩, ?_, he.symm⟩
      exact (unsupported_iff entry.1).mp (by simpa using List.find?_some hf)
  refine ⟨⟨?_, ?_⟩, hcopy element inputElement newElement, ?_⟩
  · rintro ⟨e, he⟩
    obtain ⟨normalized, hmem, hn, _⟩ := hcopy element inputElement newElement e he
    exact ⟨normalized, hmem, hn⟩
  · intro hbad
    obtain ⟨normalized, _, _, he⟩ := hfind element inputElement newElement hbad
    exact ⟨_, he⟩
  · intro c hc hbad
    have hempty : c.element.childNodes = .nil := by
      rw [(compile_element host element attrs c hc).1]
    rw [link_eq]
    cases hload : loadTemplate host
        (if truthy attrs.template = true then attrs.template.getD "" else "input.html") with
    | error e =>
      dsimp only
      refine ⟨rfl, hempty, by simp, ?_⟩
      intro hloads
      obtain ⟨loaded, hloaded⟩ := hloads
        (if truthy attrs.template = true then attrs.template.getD "" else "input.html")
      rw [hload] at hloaded
      cases hloaded
    | ok loaded =>
      dsimp only
      cases hmodel : attrs.ngModel with
      | none =>
        rw [templateLoaded_undefined_model host _ _ attrs _ _ hmodel]
        exact ⟨rfl, hempty, by simp, fun _ h => absurd rfl h⟩
      | some ngModel =>
        obtain ⟨normalized, hmem, hn, he⟩ := hfind c.element
          (findInputElement (loaded.findHtml "label" (host.parseHTML c.labelContent)))
          (loaded.findHtml "label" (host.parseHTML c.labelContent)) hbad
        rw [templateLoaded_error host _ _ attrs _ _ ngModel hmodel _ he]
        exact ⟨rfl, hempty, by simp, fun _ _ => ⟨normalized, hmem, hn, rfl⟩⟩

/-- C3 at a concrete input: the copy loop throws on a field with `ng-repeat`. -/
theorem unsupported_directive_rejected_witness :
    ∃ e, copyAttributes repeatedFieldAttrs.attr repeatedField
      (findInputElement inputTemplate) inputTemplate = .error e :=
  (unsupported_directive_rejected exampleHost repeatedField repeatedFieldAttrs "005"
    (findInputElement inputTemplate) inputTemplate).1.mpr
    ⟨"ngRepeat", by decide, Or.inl rfl⟩

/-- C6, as stated, fails: `namedField` has `required` with the empty value, and after the
copy loop the input element has `required` with the value `required`. -/
theorem attributes_copied_boolean_value :
    ¬ ∀ copied,
        copyAttributes namedFieldAttrs.attr namedField (findInputElement inputTemplate)
          inputTemplate = .ok copied →
        ∀ entry ∈ namedFieldAttrs.attr, ∀ value,
          lookup namedField.attributes entry.2 = some value →
          copied.attrGet (findInputElement inputTemplate) entry.2 = some value := by
  intro hall
  have hrequired := hall copiedInputTemplate (by decide) ("required", "required")
    (by decide) "" (by decide)
  revert hrequired
  decide

/-- C6, amended: when `$attr` has none of the unsupported keys, the copy loop completes;
every attribute named in `$attr` that is not a boolean attribute of jqLite is then on the
template's input element with the value it has on the original element; every boolean
attribute (`multiple`, `selected`, `checked`, `disabled`, `readonly`, `required`, `open`)
named in `$attr` and specified on the original element is on the input element with its
lower-cased name as value; the attributes not named in `$attr` are unchanged, and so are the
attributes of every other element of the template. -/
theorem attributes_copied (element : Element) (attrs : Attrs) (newElement : NodeList)
    (inputElement : Path) (hinput : findInputElement newElement = some inputElement)
    (hsupported : ∀ normalized ∈ attrs.attr.map Prod.fst,
      ¬ (normalized = "ngRepeat" ∨ normalized = "ngSwitch" ∨ normalized = "uiIf")) :
    ∃ copied,
      copyAttributes attrs.attr element (findInputElement newElement) newElement = .ok copied
      ∧ (∀ entry ∈ attrs.attr, ∀ value, isBooleanAttr entry.2 = false →
          lookup element.attributes entry.2 = some value →
          copied.attrGet (some inputElement) entry.2 = some value)
      ∧ (∀ entry ∈ attrs.attr, isBooleanAttr entry.2 = true →
          (lookup element.attributes entry.2).isSome →
          copied.attrGet (some inputElement) entry.2 = some (lowercase entry.2))
      ∧ (∀ name, name ∉ attrs.attr.map Prod.snd →
          copied.attrGet (some inputElement) name
            = newElement.attrGet (some inputElement) name)
      ∧ (∀ path name, path ≠ inputElement →
          copied.attrGet (some path) name = newElement.attrGet (some path) name)
      ∧ findInputElement copied = some inputElement := by
  have hnone := (find_unsupported_eq_none attrs.attr).mpr hsupported
  obtain ⟨e, he, _⟩ := findInputElement_elementAt newElement inputElement hinput
  refine ⟨_, by rw [copyAttributes_eq, hnone, hinput], ?_, ?_, ?_, ?_, ?_⟩
  · intro entry hentry value hplain hvalue
    exact copied_attrGet attrs.attr element inputElement newElement (by simp [he]) entry
      hentry value (by rw [attr_of_plain element entry.2 hplain, hvalue])
  · intro entry hentry hboolean hspecified
    exact copied_attrGet attrs.attr element inputElement newElement (by simp [he]) entry
      hentry (lowercase entry.2) (by simp [Element.attr, hboolean, hspecified])
  · intro name hname
    exact copied_attrGet_frame attrs.attr element inputElement newElement inputElement name
      (fun _ => hname)
  · intro path name hpath
    exact copied_attrGet_frame attrs.attr element inputElement newElement path name
      (fun h => absurd h hpath)
  · rw [← hinput]
    apply findInputElement_congr
    rw [copied_descendants]

/-- C6 at a concrete input: the `for` attribute of `namedField` arrives on the `input` of
the template with its value, and `required` arrives with the value `required`. -/
theorem attributes_copied_witness :
    findInputElement inputTemplate = some [Step.firstChild, Step.nextSibling]
    ∧ (∀ normalized ∈ namedFieldAttrs.attr.map Prod.fst,
        ¬ (normalized = "ngRepeat" ∨ normalized = "ngSwitch" ∨ normalized = "uiIf"))
    ∧ ∃ copied,
      copyAttributes namedFieldAttrs.attr namedField (findInputElement inputTemplate)
          inputTemplate = .ok copied
      ∧ copied.attrGet (some [Step.firstChild, Step.nextSibling]) "for" = some "mine"
      ∧ copied.attrGet (some [Step.firstChild, Step.nextSibling]) "required"
          = some "required" := by
  obtain ⟨copied, hcopied, hplain, hboolean, _⟩ := attributes_copied namedField
    namedFieldAttrs inputTemplate [Step.firstChild, Step.nextSibling] (by decide) (by decide)
  exact ⟨by decide, by decide, copied, hcopied,
    hplain ("for", "for") (by decide) "mine" (by decide) (by decide),
    hboolean ("required", "required") (by decide) (by decide) (by decide)⟩

/-- C8, as stated, fails: the fetch of `input.html` from `plainTextHost` succeeds with a
response that is not markup, and `loadTemplate` is rejected instead of giving the element
built from the response data. -/
theorem loadTemplate_rejects_plain_text :
    plainTextHost.httpGet "input.html" = some "Loading"
      ∧ loadTemplate plainTextHost "input.html" ≠ .ok (plainTextHost.parseHTML "Loading")
      ∧ ¬ ∃ built, loadTemplate plainTextHost "input.html" = .ok built := by
  refine ⟨by decide, by decide, ?_⟩
  rintro ⟨built, hbuilt⟩
  have hrejected : loadTemplate plainTextHost "input.html"
      = .error (.error "selectors not implemented") := by decide
  rw [hrejected] at hbuilt
  cases hbuilt

/-- C8, amended: a template whose fetch fails rejects `loadTemplate` with
`Template not found: ` followed by its name, and `link` then ends with that error, the
element untouched and nothing handed to `$compile`; a template whose fetch succeeds with
response data that starts with `<` gives the element built from the response data.  The
template fetched is `attrs.template` when it is non-empty and `input.html` otherwise. -/
theorem unresolved_template_fails {α : Type} (host : Host α) (messageMap : Dict α)
    (labelContent : String) (element : Element) (attrs : Attrs) (childScopeId : String) :
    (∀ template, host.httpGet template = none →
        loadTemplate host template = .error (.error ("Template not found: " ++ template)))
    ∧ (∀ template data, host.httpGet template = some data →
        data.data.head? = some '<' →
        loadTemplate host template = .ok (host.parseHTML data))
    ∧ (∀ template,
        (attrs.template = some template ∧ template ≠ "")
          ∨ ((attrs.template = none ∨ attrs.template = some "") ∧ template = "input.html") →
        (host.httpGet template = none →
          link host messageMap labelContent element attrs childScopeId
            = (⟨some messageMap, element, none⟩,
                .error (.error ("Template not found: " ++ template))))
        ∧ (∀ data, host.httpGet template = some data → data.data.head? = some '<' →
          (link host messageMap labelContent element attrs childScopeId).2
            = (templateLoaded host labelContent element attrs childScopeId
                (host.parseHTML data)).map (fun _ => ()))) := by
  refine ⟨?_, ?_, ?_⟩
  · intro template hget
    rw [loadTemplate_eq, hget]
  · intro template data hget hmarkup
    rw [loadTemplate_eq, hget]
    exact angular_element_markup host data hmarkup
  · intro template htemplate
    have hname : (if truthy attrs.template = true then attrs.template.getD "" else "input.html")
        = template := by
      rcases htemplate with ⟨hsome, hne⟩ | ⟨hnone | hempty, rfl⟩
      · simp [hsome, truthy, hne]
      · simp [hnone, truthy]
      · simp [hempty, truthy]
    constructor
    · intro hget
      rw [link_eq, hname, loadTemplate_eq, hget]
    · intro data hget hmarkup
      rw [link_eq, hname, loadTemplate_eq, hget]
      dsimp only
      rw [angular_element_markup host data hmarkup]
      dsimp only
      cases templateLoaded host labelContent element attrs childScopeId (host.parseHTML data)
        <;> rfl

/-- C8 at a concrete input: `select.html` is not in the cache of `exampleHost`, so the
link of a field that asks for it fails and leaves the element as it was. -/
theorem unresolved_template_fails_witness :
    link exampleHost [] "Country" selectField selectFieldAttrs "005"
      = (⟨some [], selectField, none⟩, .error (.error "Template not found: select.html")) :=
  ((unresolved_template_fails exampleHost [] "Country" selectField selectFieldAttrs
    "005").2.2 "select.html" (Or.inl ⟨rfl, by decide⟩)).1 (by decide)

/-- C9: on a field whose only `validator` has the key `required`, the key `toString`
leaves one live watch, on the member `toString` the message map inherits from
`Object.prototype`, although no `validator` with that key was declared. -/
theorem bindValidationMessage_watches_inherited_member :
    getValidationMessageMap exampleHost requiredField = .ok [("required", "Required")]
      ∧ (observeAll [("required", "Required")] ["toString"]).watchers
          = [(0, Member.inherited "toString")]
      ∧ ¬ ∃ validator ∈ requiredField.find "validator",
            validator.attr "key" = some "toString" := by
  decide

/-- C10: whenever the callback on the loaded template completes, in the template it hands
to `$compile` and appends to the element the input element has `name` and `id` equal to
`$fieldId` and every `label` has `for` equal to `$fieldId`, whatever `name`, `id` or `for`
the original element carries; and the callback does complete for every field that has an
`ng-model` attribute and none of the unsupported directives. -/
theorem input_and_label_wired {α : Type} (host : Host α) (labelContent : String)
    (element : Element) (attrs : Attrs) (childScopeId : String) (newElement : NodeList) :
    (∀ linked,
      templateLoaded host labelContent element attrs childScopeId newElement = .ok linked →
      (∃ ngModel, attrs.ngModel = some ngModel
        ∧ linked.childScope.fieldId = fieldId host.toLowerCase ngModel childScopeId)
      ∧ linked.element.childNodes = element.childNodes.append linked.newElement
      ∧ findInputElement linked.newElement
          = findInputElement (newElement.findHtml "label" (host.parseHTML labelContent))
      ∧ (∀ inputElement, findInputElement linked.newElement = some inputElement →
          linked.newElement.attrGet (some inputElement) "name"
              = some linked.childScope.fieldId
          ∧ linked.newElement.attrGet (some inputElement) "id"
              = some linked.childScope.fieldId)
      ∧ (∀ label ∈ linked.newElement.find "label",
          label.2.attr "for" = some linked.childScope.fieldId))
    ∧ (attrs.ngModel ≠ none →
        (∀ normalized ∈ attrs.attr.map Prod.fst,
          ¬ (normalized = "ngRepeat" ∨ normalized = "ngSwitch" ∨ normalized = "uiIf")) →
        ∃ linked,
          templateLoaded host labelContent element attrs childScopeId newElement
            = .ok linked) := by
  constructor
  · intro linked hrun
    obtain ⟨⟨ngModel, hmodel⟩, hnone⟩ := templateLoaded_ok_inv host labelContent element
      attrs childScopeId newElement linked hrun
    obtain ⟨other, hother, hid, happend, hsame, hinput, hlabel⟩ := templateLoaded_completes
      host labelContent element attrs childScopeId newElement ngModel hmodel hnone
    rw [hrun] at hother
    cases hother
    exact ⟨⟨ngModel, hmodel, hid⟩, happend, hsame,
      fun inputElement hfound => hinput inputElement (hsame ▸ hfound), hlabel⟩
  · intro hmodel hsupported
    cases hm : attrs.ngModel with
    | none => exact absurd hm hmodel
    | some ngModel =>
      obtain ⟨linked, hrun, _⟩ := templateLoaded_completes host labelContent element attrs
        childScopeId newElement ngModel hm
        ((find_unsupported_eq_none attrs.attr).mpr hsupported)
      exact ⟨linked, hrun⟩

/-- C10 at a concrete input: `namedField` carries `name`, `id` and `for` set to `mine`, and
the input still ends up with the generated `name`. -/
theorem input_and_label_wired_witness :
    ∃ linked,
      templateLoaded exampleHost "Name" namedField namedFieldAttrs "005" inputTemplate
        = .ok linked
      ∧ linked.newElement.attrGet (some [Step.firstChild, Step.nextSibling]) "name"
          = some linked.childScope.fieldId := by
  obtain ⟨linked, hrun⟩ := (input_and_label_wired exampleHost "Name" namedField
    namedFieldAttrs "005" inputTemplate).2 (by decide) (by decide)
  exact ⟨linked, hrun, (((input_and_label_wired exampleHost "Name" namedField
    namedFieldAttrs "005" inputTemplate).1 linked hrun).2.2.2.1
      [Step.firstChild, Step.nextSibling]
      ((((input_and_label_wired exampleHost "Name" namedField namedFieldAttrs "005"
        inputTemplate).1 linked hrun).2.2.1).trans (by decide))).1⟩

end FieldDirective
